import Mathlib

/-!
# The import pipeline of `gif`

A shallow embedding of `import.go` and `image/image.go`: the format detection
(`importFromReader`), the bundle reader (`importBundle`) with its staging
directory, and the manifest importer (`importUrls`).

Go values are embedded as follows.

* `[]byte` is `List UInt8`, `string` is `String`; `len(s)` of a string is its
  number of UTF-8 bytes (`goLen`).
* A reader is a `Stream`: the bytes it delivers and the error, if any, that
  ends it in place of `io.EOF`.
* The effects of a call are an ordered list of `Event`s: what is written to the
  tab writer, each call of `AddInterface`, and the file operations on the
  staging directory.
* A call ends in an `Outcome`: a `nil` error, a returned error, or a run-time
  panic.
* What the code obtains from outside the repository's sources is a field of
  `World`.
-/

namespace Gif

abbrev Bytes := List UInt8

/-! ## `crypto/sha1` and `encoding/hex` -/

namespace Sha1

def mask32 (x : Nat) : Nat := x % 2 ^ 32

def rotl (n x : Nat) : Nat := mask32 ((x <<< n) ||| (x >>> (32 - n)))

def be32 (a b c d : UInt8) : Nat :=
  (a.toNat <<< 24) ||| (b.toNat <<< 16) ||| (c.toNat <<< 8) ||| d.toNat

def wordBytes (x : Nat) : Bytes :=
  [UInt8.ofNat (x >>> 24), UInt8.ofNat (x >>> 16), UInt8.ofNat (x >>> 8), UInt8.ofNat x]

/-- Message padding: a `0x80` byte, zeros up to 56 modulo 64, the bit length on 8 bytes. -/
def pad (msg : Bytes) : Bytes :=
  let l := msg.length
  let zeros := (119 - l % 64) % 64
  let bits := 8 * l
  msg ++ [(0x80 : UInt8)] ++ List.replicate zeros (0 : UInt8) ++
    wordBytes (bits >>> 32) ++ wordBytes bits

def words : Bytes → List Nat
  | a :: b :: c :: d :: rest => be32 a b c d :: words rest
  | _ => []

/-- Extend the message schedule by `n` words; `w` holds the words newest first. -/
def extend : Nat → List Nat → List Nat
  | 0, w => w
  | n + 1, w =>
    extend n (rotl 1 (w.getD 2 0 ^^^ w.getD 7 0 ^^^ w.getD 13 0 ^^^ w.getD 15 0) :: w)

structure H where
  a : Nat
  b : Nat
  c : Nat
  d : Nat
  e : Nat

def round (t : Nat) (s : H) (wt : Nat) : H :=
  let fk : Nat × Nat :=
    if t < 20 then ((s.b &&& s.c) ||| ((s.b ^^^ 0xFFFFFFFF) &&& s.d), 0x5A827999)
    else if t < 40 then (s.b ^^^ s.c ^^^ s.d, 0x6ED9EBA1)
    else if t < 60 then ((s.b &&& s.c) ||| (s.b &&& s.d) ||| (s.c &&& s.d), 0x8F1BBCDC)
    else (s.b ^^^ s.c ^^^ s.d, 0xCA62C1D6)
  { a := mask32 (rotl 5 s.a + fk.1 + s.e + fk.2 + wt), b := s.a, c := rotl 30 s.b,
    d := s.c, e := s.d }

def rounds : Nat → H → List Nat → H
  | _, s, [] => s
  | t, s, wt :: ws => rounds (t + 1) (round t s wt) ws

def block (h : H) (ws : List Nat) : H :=
  let sched := (extend 64 ws.reverse).reverse
  let r := rounds 0 h sched
  { a := mask32 (h.a + r.a), b := mask32 (h.b + r.b), c := mask32 (h.c + r.c),
    d := mask32 (h.d + r.d), e := mask32 (h.e + r.e) }

def blocks : Nat → H → List Nat → H
  | 0, h, _ => h
  | n + 1, h, ws => blocks n (block h (ws.take 16)) (ws.drop 16)

def init : H := ⟨0x67452301, 0xEFCDAB89, 0x98BADCFE, 0x10325476, 0xC3D2E1F0⟩

/-- The 20-byte SHA-1 digest, `h.Write(msg); h.Sum(nil)`. -/
def sum (msg : Bytes) : Bytes :=
  let ws := words (pad msg)
  let h := blocks (ws.length / 16) init ws
  wordBytes h.a ++ wordBytes h.b ++ wordBytes h.c ++ wordBytes h.d ++ wordBytes h.e

end Sha1

def hexDigit (n : Nat) : Char := "0123456789abcdef".data.getD n '0'

/-- Lowercase hexadecimal, two characters a byte: `hex.EncodeToString`. -/
def hexEncode (bs : Bytes) : String :=
  String.mk (bs.flatMap fun b => [hexDigit (b.toNat / 16), hexDigit (b.toNat % 16)])

/-! ## Strings -/

/-- Go's `len(s)`: the number of bytes of the UTF-8 encoding. -/
def goLen (s : String) : Nat := (s.data.map Char.utf8Size).sum

/-- The longest run of leading characters that fits in `n` bytes. -/
def takeBytes : Nat → List Char → List Char
  | _, [] => []
  | n, c :: cs => if c.utf8Size ≤ n then c :: takeBytes (n - c.utf8Size) cs else []

/-- The slice expression `s[:8]`: `none` is the run-time panic for a string shorter
than 8 bytes. (A character cut by the eighth byte is left out of the result; on ASCII
strings the result is exact.) -/
def slice8 (s : String) : Option String :=
  if goLen s < 8 then none else some (String.mk (takeBytes 8 s.data))

/-- Go's `strings.TrimSuffix(s, ".gif")`. -/
def trimGifSuffix (s : String) : String :=
  if ".gif".data.isSuffixOf s.data then String.mk (s.data.take (s.data.length - 4)) else s

def isHexChar (c : Char) : Bool :=
  let n := c.toNat
  (48 ≤ n && n ≤ 57) || (97 ≤ n && n ≤ 102) || (65 ≤ n && n ≤ 70)

/-- The regular expression `\A[0-9a-fA-F]{40}\z`. -/
def idRegexpMatch (s : String) : Bool :=
  s.data.length == 40 && s.data.all isHexChar

/-! ## `path.Join` -/

/-- The elements of a path between its slashes. -/
def splitSlash : List Char → List (List Char)
  | [] => [[]]
  | c :: cs =>
    if c = '/' then [] :: splitSlash cs
    else match splitSlash cs with
      | h :: t => (c :: h) :: t
      | [] => [[c]]

/-- One element in `path.Clean`; the stack holds the elements kept so far, last first.
An empty element and `.` are dropped; `..` removes the element before it, is kept when
there is none to remove in a relative path, and is dropped at the root. -/
def cleanStep (rooted : Bool) (stack : List (List Char)) (c : List Char) : List (List Char) :=
  if c = [] ∨ c = ['.'] then stack
  else if c = ['.', '.'] then
    match stack with
    | top :: rest => if top = ['.', '.'] then c :: stack else rest
    | [] => if rooted then [] else [c]
  else c :: stack

def joinSlash : List (List Char) → List Char
  | [] => []
  | [c] => c
  | c :: cs => c ++ '/' :: joinSlash cs

/-- Go's `path.Clean`, on the elements of the path. -/
def pathClean (p : List Char) : List Char :=
  if p = [] then ['.']
  else
    let rooted := p.head? == some '/'
    let body := joinSlash ((splitSlash p).foldl (cleanStep rooted) []).reverse
    if rooted then '/' :: body else if body = [] then ['.'] else body

/-- Go's `path.Join(dir, name)`: empty elements are ignored, the rest are joined by a
slash and cleaned. -/
def pathJoin (dir name : String) : String :=
  if dir = "" then (if name = "" then "" else String.mk (pathClean name.data))
  else String.mk (pathClean (dir.data ++ '/' :: name.data))

/-! ## `image.Image` -/

/-- What `time.Parse` yields: seconds and nanoseconds since the epoch, and the zone
offset in seconds. -/
structure Time where
  sec : Int
  nsec : Nat
  offset : Int
  deriving DecidableEq, Repr

/-- The struct `image.Image`; its field `Type` is named `Kind` here. -/
structure Image where
  Id : String
  Url : String
  Tags : List String
  Data : Bytes
  AddedAt : Option Time
  Size : Nat
  Kind : String
  deriving DecidableEq, Repr

/-- Modelled from the spec: the struct `store.ExportedImage`, declared outside the
sources at hand. The spec gives an element of the manifest as `id`, `url`, `tags` and an
`addedAt` string that may be left out; these are the four fields that `import.go`
reads, and `AddedAt` is compared with the empty string there. -/
structure ExportedImage where
  Id : String
  Url : String
  Tags : List String
  AddedAt : String
  deriving DecidableEq, Repr

/-- Go's zero value, what a map yields for a key it does not hold. -/
def ExportedImage.zero : ExportedImage := ⟨"", "", [], ""⟩

/-- A reader: the bytes it delivers, then `io.EOF` (`none`) or an error. -/
structure Stream where
  data : Bytes
  err : Option String
  deriving DecidableEq, Repr

/-- One member of the tar stream: the header's name and the member's body. -/
structure Member where
  Name : String
  body : Stream
  deriving DecidableEq, Repr

/-- What `tarReader.Next()` yields call after call: the members, then `io.EOF`
(`none`) or an error. -/
structure Archive where
  members : List Member
  err : Option String
  deriving DecidableEq, Repr

/-- The response of `http.Get`. -/
structure Response where
  StatusCode : Nat
  Proto : String
  Status : String
  Body : Stream

/-- What the importer obtains from outside `import.go` and `image.go`. -/
structure World where
  /-- Result of `ioutil.TempDir("", "gif-import")`: the new directory, or an error. -/
  tempDir : Except String String
  /-- Result of `store.ParseMetadata(reader)`, the decoder of the JSON metadata array,
  declared outside the sources at hand. -/
  parseMetadata : Stream → Except String (List ExportedImage)
  /-- Result of `time.Parse(time.RFC3339, s)`. -/
  parseTime : String → Except String Time
  /-- Extension of the kind that `filetype.Match(data)` finds. -/
  matchType : Bytes → String
  /-- Result of `http.Get(url)`. -/
  httpGet : String → Except String Response
  /-- The tar members read through `tar.NewReader` over the gzip reader. -/
  openArchive : Stream → Archive
  /-- Error of `os.Create(path)` when the operating system refuses to make the file:
  the directory of the path is not there (a staging directory whose name does not
  survive `path.Clean`, for one), or the file cannot be opened for writing. -/
  createError : String → Option String

def Image.IsHydrated (i : Image) : Bool := decide (i.Data.length > 0)

def Image.SetAddedAtFromString (w : World) (i : Image) (addedAt : String) :
    Image × Option String :=
  match w.parseTime addedAt with
  | .ok value => ({ i with AddedAt := some value }, none)
  | .error e => (i, some e)

def generateId (data : Bytes) : String := hexEncode (Sha1.sum data)

def FromData (w : World) (data : Bytes) : Image :=
  { Id := generateId data, Url := "", Tags := [], Data := data, AddedAt := none,
    Size := data.length % 2 ^ 64, Kind := w.matchType data }

def FromUrl (w : World) (url : String) : Except String Image :=
  match w.httpGet url with
  | .error e => .error e
  | .ok response =>
    if response.StatusCode ≥ 300 then .error (response.Proto ++ " " ++ response.Status)
    else match response.Body.err with
      | some e => .error e
      | none => .ok { FromData w response.Body.data with Url := url }

/-! ## The staging directory -/

/-- The files that one `importBundle` call has staged, by the path they were created
under, and whether the staging directory is still there. A file is read back under the
path string it was created under. -/
structure Staging where
  present : Bool
  files : List (String × Bytes)
  deriving DecidableEq, Repr

/-- Go's `ioutil.ReadFile(path)`. -/
def Staging.readFile (fs : Staging) (path : String) : Except String Bytes :=
  match fs.files.lookup path with
  | some data => .ok data
  | none => .error ("open " ++ path ++ ": no such file or directory")

/-- Go's `os.Create(path)` followed by writing `data`. The call fails when the world
refuses the path or the staging directory has been removed; otherwise the file is
created or truncated. -/
def Staging.create (w : World) (fs : Staging) (path : String) (data : Bytes) :
    Except String Staging :=
  match w.createError path with
  | some e => .error e
  | none =>
    if fs.present then
      .ok { fs with files := (path, data) :: fs.files.filter (fun f => f.1 != path) }
    else .error ("open " ++ path ++ ": no such file or directory")

/-- Go's `os.RemoveAll(dirname)`. -/
def Staging.removeAll (_fs : Staging) : Staging := ⟨false, []⟩

def FromFile (w : World) (fs : Staging) (path : String) : Except String Image :=
  match fs.readFile path with
  | .error e => .error e
  | .ok data => .ok (FromData w data)

/-! ## Events and outcomes -/

inductive Event where
  /-- Something is written to the tab writer: `fmt.Fprintf(writer, ...)`. -/
  | write (text : String)
  /-- A call `AddInterface(s, writer, img, false)`, the add operation of the store; the
  function is declared outside the sources at hand, so the call is recorded with its
  argument. -/
  | add (img : Image)
  /-- The staging directory is made by `ioutil.TempDir`. -/
  | mkTemp (dir : String)
  /-- A file is made by `os.Create(path)`. -/
  | create (path : String)
  /-- A call `os.RemoveAll(dir)`. -/
  | removeAll (dir : String)
  deriving DecidableEq, Repr

/-- The errors the import functions return. -/
inductive ImportError where
  /-- The error of `ioutil.TempDir`. -/
  | tempDir (msg : String)
  /-- The error of `tarReader.Next()`. -/
  | tar (msg : String)
  /-- The error of `store.ParseMetadata` on `gif.json`. -/
  | metadata (msg : String)
  /-- The value `errors.New("Archive does not contain a gif.json file.")`. -/
  | noMetadata
  /-- The error of `bufferedReader.Peek(10)`. -/
  | peek (msg : String)
  /-- The value `errors.New("Invalid import file")`. -/
  | invalidFile
  deriving DecidableEq, Repr

def ImportError.Error : ImportError → String
  | .tempDir msg => msg
  | .tar msg => msg
  | .metadata msg => msg
  | .noMetadata => "Archive does not contain a gif.json file."
  | .peek msg => msg
  | .invalidFile => "Invalid import file"

/-- How a call ends. -/
inductive Outcome where
  /-- The call returns `nil`. -/
  | ok
  /-- The call returns an error. -/
  | error (e : ImportError)
  /-- The call panics: slice bounds out of range. -/
  | panic
  deriving DecidableEq, Repr

def errorLine (id8 msg : String) : String := "[error]\t" ++ id8 ++ "\t" ++ msg ++ "\x0c"

def mismatchLine (id8 newId : String) : String :=
  "[warn]\t" ++ id8 ++ "\tID mismatch, new ID: " ++ newId ++ "\x0c"

def dateLine (id8 addedAt : String) : String :=
  "[warn]\t" ++ id8 ++ "\tCould not set addition date: " ++ addedAt ++ "\x0c"

/-- The statement
`if claimed != img.Id { fmt.Fprintf(writer, "[warn]\t%s\tID mismatch, new ID: %s\f", claimed[:8], img.Id) }`:
its events, or `none` when the slice panics. -/
def warnMismatch (claimed : String) (img : Image) : Option (List Event) :=
  if claimed != img.Id then
    (slice8 claimed).map fun id8 => [Event.write (mismatchLine id8 img.Id)]
  else some []

/-! ## `importUrls` -/

/-- One iteration of the loop of `importUrls`: the events, and whether it panicked. -/
def importUrl (w : World) (exported : ExportedImage) : List Event × Bool :=
  match FromUrl w exported.Url with
  | .error e =>
    match slice8 exported.Id with
    | none => ([], true)
    | some id8 => ([.write (errorLine id8 e)], false)
  | .ok img =>
    match warnMismatch exported.Id img with
    | none => ([], true)
    | some ev1 =>
      let img := { img with Tags := exported.Tags }
      if exported.AddedAt != "" then
        match img.SetAddedAtFromString w exported.AddedAt with
        | (img, none) => (ev1 ++ [.add img], false)
        | (img, some _) =>
          match slice8 exported.Id with
          | none => (ev1, true)
          | some id8 => (ev1 ++ [.write (dateLine id8 exported.AddedAt), .add img], false)
      else (ev1 ++ [.add img], false)

def importUrls (w : World) : List ExportedImage → List Event × Outcome
  | [] => ([], .ok)
  | exported :: rest =>
    match importUrl w exported with
    | (ev, true) => (ev, .panic)
    | (ev, false) =>
      let r := importUrls w rest
      (ev ++ r.1, r.2)

/-! ## `importBundle` -/

/-- The map `imageMap`, latest assignment first. -/
abbrev ImageMap := List (String × ExportedImage)

/-- The index expression `imageMap[id]`. -/
def ImageMap.get (m : ImageMap) (id : String) : ExportedImage :=
  (m.lookup id).getD ExportedImage.zero

/-- The loop `for _, exported := range images { imageMap[exported.Id] = exported }`. -/
def ImageMap.putAll (m : ImageMap) (images : List ExportedImage) : ImageMap :=
  images.foldl (fun m exported => (exported.Id, exported) :: m) m

/-- The local variables of `importBundle`, and the staging directory. -/
structure BundleState where
  imageMap : ImageMap
  metadataRead : Bool
  imageQueue : List String
  fs : Staging
  deriving DecidableEq, Repr

/-- One iteration of the loop that empties the queue: the events, and whether it
panicked. -/
def drainOne (w : World) (dirname : String) (imageMap : ImageMap) (fs : Staging)
    (queuedImageId : String) : List Event × Bool :=
  let tempPath := pathJoin dirname (queuedImageId ++ ".gif")
  match FromFile w fs tempPath with
  | .error e =>
    match slice8 queuedImageId with
    | none => ([], true)
    | some id8 => ([.write (errorLine id8 e)], false)
  | .ok img =>
    match warnMismatch queuedImageId img with
    | none => ([], true)
    | some ev1 =>
      let queuedImage := imageMap.get queuedImageId
      let img := { img with Url := queuedImage.Url, Tags := queuedImage.Tags }
      if queuedImage.AddedAt != "" then
        match img.SetAddedAtFromString w queuedImage.AddedAt with
        | (img, none) => (ev1 ++ [.add img], false)
        | (img, some _) =>
          match slice8 queuedImage.Id with
          | none => (ev1, true)
          | some id8 => (ev1 ++ [.write (dateLine id8 queuedImage.AddedAt), .add img], false)
      else (ev1 ++ [.add img], false)

/-- The loop `for _, queuedImageId := range imageQueue`. -/
def drain (w : World) (dirname : String) (imageMap : ImageMap) (fs : Staging) :
    List String → List Event × Bool
  | [] => ([], false)
  | queuedImageId :: rest =>
    match drainOne w dirname imageMap fs queuedImageId with
    | (ev, true) => (ev, true)
    | (ev, false) =>
      let r := drain w dirname imageMap fs rest
      (ev ++ r.1, r.2)

/-- The content member read after the metadata: the events, and whether it panicked. -/
def addMember (w : World) (imageMap : ImageMap) (imageId : String) (body : Stream) :
    List Event × Bool :=
  let exported := imageMap.get imageId
  match body.err with
  | some e =>
    match slice8 imageId with
    | none => ([], true)
    | some id8 => ([.write (errorLine id8 e)], false)
  | none =>
    let img := FromData w body.data
    match warnMismatch exported.Id img with
    | none => ([], true)
    | some ev1 =>
      let img := { img with Url := exported.Url, Tags := exported.Tags }
      let img := if exported.AddedAt != "" then
        (img.SetAddedAtFromString w exported.AddedAt).1 else img
      (ev1 ++ [.add img], false)

/-- The content member read before the metadata: it goes into temporary storage. -/
def stageMember (w : World) (dirname : String) (st : BundleState) (imageId : String)
    (header : Member) : List Event × BundleState × Bool :=
  let tempPath := pathJoin dirname header.Name
  match st.fs.create w tempPath header.body.data with
  | .error e =>
    match slice8 imageId with
    | none => ([], st, true)
    | some id8 => ([.write (errorLine id8 e)], st, false)
  | .ok fs =>
    match header.body.err with
    | some e =>
      match slice8 imageId with
      | none => ([.create tempPath], { st with fs := fs }, true)
      | some id8 => ([.create tempPath, .write (errorLine id8 e)], { st with fs := fs }, false)
    | none =>
      ([.create tempPath], { st with fs := fs, imageQueue := st.imageQueue ++ [imageId] }, false)

/-- The result of one iteration of the loop over the members: the events, the new
state, and the outcome when the iteration leaves the function. -/
structure Step where
  events : List Event
  st : BundleState
  exit : Option Outcome

/-- One iteration of the loop of `importBundle`, for the header that
`tarReader.Next()` returned. -/
def bundleStep (w : World) (dirname : String) (st : BundleState) (header : Member) : Step :=
  if header.Name = "gif.json" then
    match w.parseMetadata header.body with
    | .error e => ⟨[], st, some (.error (.metadata e))⟩
    | .ok images =>
      let imageMap := st.imageMap.putAll images
      let st := { st with metadataRead := true, imageMap := imageMap }
      match drain w dirname imageMap st.fs st.imageQueue with
      | (ev, true) => ⟨ev, st, some .panic⟩
      | (ev, false) =>
        ⟨ev ++ [.removeAll dirname], { st with imageQueue := [], fs := st.fs.removeAll }, none⟩
  else
    let imageId := trimGifSuffix header.Name
    if !idRegexpMatch imageId then ⟨[], st, none⟩
    else if st.metadataRead then
      match addMember w st.imageMap imageId header.body with
      | (ev, true) => ⟨ev, st, some .panic⟩
      | (ev, false) => ⟨ev, st, none⟩
    else
      match stageMember w dirname st imageId header with
      | (ev, st, true) => ⟨ev, st, some .panic⟩
      | (ev, st, false) => ⟨ev, st, none⟩

/-- The loop of `importBundle` and what follows it. -/
def bundleLoop (w : World) (dirname : String) (err : Option String) :
    BundleState → List Member → List Event × BundleState × Outcome
  | st, [] =>
    match err with
    | some e => ([], st, .error (.tar e))
    | none =>
      if !st.metadataRead then
        ([.removeAll dirname], { st with fs := st.fs.removeAll }, .error .noMetadata)
      else ([], st, .ok)
  | st, header :: rest =>
    let s := bundleStep w dirname st header
    match s.exit with
    | some out => (s.events, s.st, out)
    | none =>
      let r := bundleLoop w dirname err s.st rest
      (s.events ++ r.1, r.2)

/-- The state of `importBundle` when its loop starts. -/
def BundleState.init : BundleState :=
  { imageMap := [], metadataRead := false, imageQueue := [], fs := ⟨true, []⟩ }

/-- The function `importBundle`, on the members of the archive: the events, the final
state (`none` when no staging directory was made) and the outcome. -/
def importBundle (w : World) (archive : Archive) :
    List Event × Option BundleState × Outcome :=
  match w.tempDir with
  | .error e => ([], none, .error (.tempDir e))
  | .ok dirname =>
    let r := bundleLoop w dirname archive.err BundleState.init archive.members
    (.mkTemp dirname :: r.1, some r.2.1, r.2.2)

/-! ## `importFromReader` -/

/-- Whether `gzip.NewReader` accepts a reader that holds these ten bytes and no more:
the two magic bytes, the deflate method, and none of the flags that announce header
fields after the tenth byte (header CRC, extra field, name, comment). -/
def gzipHeaderOk (testBytes : Bytes) : Bool :=
  match testBytes with
  | [id1, id2, cm, flg, _, _, _, _, _, _] =>
    id1 == 0x1f && id2 == 0x8b && cm == 8 && flg.toNat &&& 0x1e == 0
  | _ => false

/-- Go's `bufferedReader.Peek(10)`: the next ten bytes, or the error that ends the
stream before them. -/
def peek10 (reader : Stream) : Except String Bytes :=
  if reader.data.length < 10 then .error (reader.err.getD "EOF")
  else .ok (reader.data.take 10)

def importFromReader (w : World) (reader : Stream) : List Event × Outcome :=
  match peek10 reader with
  | .error e => ([], .error (.peek e))
  | .ok testBytes =>
    if gzipHeaderOk testBytes then
      let r := importBundle w (w.openArchive reader)
      (r.1, r.2.2)
    else
      match w.parseMetadata reader with
      | .ok images =>
        match importUrls w images with
        | (ev, .panic) => (ev, .panic)
        | (ev, _) => (ev, .ok)
      | .error _ => ([], .error .invalidFile)

/-! ## Reading a trace -/

/-- The images handed to `AddInterface`, in order. -/
def adds : List Event → List Image
  | [] => []
  | .add img :: rest => img :: adds rest
  | _ :: rest => adds rest

/-- The texts written to the tab writer, in order. -/
def writes : List Event → List String
  | [] => []
  | .write text :: rest => text :: writes rest
  | _ :: rest => writes rest

/-- The paths of the files created, in order. -/
def creates : List Event → List String
  | [] => []
  | .create path :: rest => path :: creates rest
  | _ :: rest => creates rest

/-- A name that is one plain path element: no slash, and not empty, `.` or `..`. -/
def plainName (name : String) : Prop :=
  '/' ∉ name.data ∧ name.data ≠ [] ∧ name.data ≠ ['.'] ∧ name.data ≠ ['.', '.']

/-- The path of the entry `name` of the directory whose clean path is `dir`: the
root is `/` and the current directory is `.`. -/
def childPath (dir name : String) : String :=
  if dir = "/" then "/" ++ name else if dir = "." then name else dir ++ "/" ++ name

/-- What `path.Join(dir, name)` puts before a plain `name`. -/
def joinPrefix (dir : String) : List Char :=
  if dir = "" then []
  else
    let rooted := dir.data.head? == some '/'
    let stack := ((splitSlash dir.data).foldl (cleanStep rooted) []).reverse
    (if rooted then ['/'] else []) ++ (if stack = [] then [] else joinSlash stack ++ ['/'])

/-- Whether a text written to the tab writer is an error line. -/
def isErrorLine (text : String) : Bool := "[error]\t".data.isPrefixOf text.data

/-- What identifies an added image in the manifest import: id, url, tags and data. -/
def Image.key (i : Image) : String × String × List String × Bytes :=
  (i.Id, i.Url, i.Tags, i.Data)

/-! ## A world for the concrete runs -/

deriving instance DecidableEq for Except

/-- The bytes of an ASCII text. -/
def asciiBytes (s : String) : Bytes := s.data.map fun c => UInt8.ofNat c.toNat

/-- The SHA-1 digest of the empty byte sequence. -/
def emptyId : String := "da39a3ee5e6b4b0d3255bfef95601890afd80709"

/-- An id that is the digest of none of the contents used below. -/
def otherId : String := "aaaaaaaaaaaaaaaaaaaaaaaaaaaaaaaaaaaaaaaa"

/-- A record for the empty content, with an addition date that is no RFC 3339 time. -/
def emptyRecord : ExportedImage :=
  ⟨emptyId, "http://example.com/empty.gif", ["empty"], "yesterday"⟩

/-- A second record, with another id. -/
def otherRecord : ExportedImage :=
  ⟨otherId, "http://example.com/missing.gif", ["other"], "2015-06-01T12:00:00Z"⟩

/-- A `gif.json` that holds `emptyRecord`. -/
def emptyManifest : Stream :=
  ⟨asciiBytes ("[\x7b\"id\":\"da39a3ee5e6b4b0d3255bfef95601890afd80709\"," ++
    "\"url\":\"http://example.com/empty.gif\",\"tags\":[\"empty\"]," ++
    "\"addedAt\":\"yesterday\"\x7d]"), none⟩

/-- A `gif.json` that holds `otherRecord` twice. -/
def twiceManifest : Stream :=
  ⟨asciiBytes ("[\x7b\"id\":\"aaaaaaaaaaaaaaaaaaaaaaaaaaaaaaaaaaaaaaaa\"," ++
    "\"url\":\"http://example.com/missing.gif\",\"tags\":[\"other\"]," ++
    "\"addedAt\":\"2015-06-01T12:00:00Z\"\x7d," ++
    "\x7b\"id\":\"aaaaaaaaaaaaaaaaaaaaaaaaaaaaaaaaaaaaaaaa\"," ++
    "\"url\":\"http://example.com/missing.gif\",\"tags\":[\"other\"]," ++
    "\"addedAt\":\"2015-06-01T12:00:00Z\"\x7d]"), none⟩

/-- A `gif.json` that holds `emptyRecord` and `otherRecord`. -/
def bothManifest : Stream :=
  ⟨asciiBytes ("[\x7b\"id\":\"da39a3ee5e6b4b0d3255bfef95601890afd80709\"," ++
    "\"url\":\"http://example.com/empty.gif\",\"tags\":[\"empty\"]," ++
    "\"addedAt\":\"yesterday\"\x7d," ++
    "\x7b\"id\":\"aaaaaaaaaaaaaaaaaaaaaaaaaaaaaaaaaaaaaaaa\"," ++
    "\"url\":\"http://example.com/missing.gif\",\"tags\":[\"other\"]," ++
    "\"addedAt\":\"2015-06-01T12:00:00Z\"\x7d]"), none⟩

/-- The metadata of no image, the JSON text `[]`. -/
def noManifest : Stream := ⟨asciiBytes "[]", none⟩

/-- A world in which the staging directory can be made, the manifests above decode to
their records, one date parses, `http://example.com/empty.gif` answers 200 with an empty
body and every other URL answers 404. -/
def sampleWorld : World where
  tempDir := .ok "/tmp/gif-import042"
  parseMetadata r :=
    if r = emptyManifest then .ok [emptyRecord]
    else if r = twiceManifest then .ok [otherRecord, otherRecord]
    else if r = bothManifest then .ok [emptyRecord, otherRecord]
    else if r = noManifest then .ok []
    else .error "invalid character"
  parseTime s :=
    if s = "2015-06-01T12:00:00Z" then .ok ⟨1433160000, 0, 0⟩
    else .error ("parsing time \"" ++ s ++ "\"")
  matchType data := if [0x47, 0x49, 0x46].isPrefixOf data then "gif" else "unknown"
  httpGet url :=
    if url = "http://example.com/empty.gif" then .ok ⟨200, "HTTP/1.1", "200 OK", ⟨[], none⟩⟩
    else .ok ⟨404, "HTTP/1.1", "404 Not Found", ⟨[], none⟩⟩
  openArchive _ := ⟨[], none⟩
  createError _ := none

/-- The sample world with a staging directory whose name `path.Join` changes: the
directory is made under `/t/sym/link/../gif-import1`, the joined paths start with
`/t/sym/gif-import1/`, and `os.Create` finds no directory there. -/
def unstableTempWorld : World :=
  { sampleWorld with
    tempDir := .ok "/t/sym/link/../gif-import1"
    createError := fun path => some ("open " ++ path ++ ": no such file or directory") }

/-- An archive without `gif.json`: a content member and a file of another name. -/
def looseArchive : Archive :=
  ⟨[⟨emptyId ++ ".gif", ⟨[], none⟩⟩, ⟨"README", ⟨[0x47], none⟩⟩], none⟩

/-- The member `gif.json` with the given body. -/
def manifestMember (manifest : Stream) : Member := ⟨"gif.json", manifest⟩

/-- The content member of a pair: it is named by the id of the metadata. -/
def contentMember (p : ExportedImage × Bytes) : Member := ⟨p.1.Id ++ ".gif", ⟨p.2, none⟩⟩

/-- The bundle that lists the content of the pairs before `gif.json`. -/
def contentFirst (manifest : Stream) (pairs : List (ExportedImage × Bytes)) : Archive :=
  ⟨pairs.map contentMember ++ [manifestMember manifest], none⟩

/-- The bundle that lists the content of the pairs after `gif.json`. -/
def metadataFirst (manifest : Stream) (pairs : List (ExportedImage × Bytes)) : Archive :=
  ⟨manifestMember manifest :: pairs.map contentMember, none⟩

/-! ## Slices of ids -/

theorem utf8Size_of_isHexChar {c : Char} (h : isHexChar c = true) : c.utf8Size = 1 := by
  have hc : c.toNat ≤ 127 := by
    simp only [isHexChar, Bool.or_eq_true, Bool.and_eq_true, decide_eq_true_eq] at h
    omega
  have : c.val ≤ 127 := by
    rw [UInt32.le_def]
    exact hc
  simp [Char.utf8Size, this]

theorem takeBytes_eq_take (l : List Char) (h : ∀ c ∈ l, c.utf8Size = 1) (n : Nat) :
    takeBytes n l = l.take n := by
  induction l generalizing n with
  | nil => simp [takeBytes]
  | cons c cs ih =>
    have hc : c.utf8Size = 1 := h c (List.mem_cons_self _ _)
    have hcs : ∀ d ∈ cs, d.utf8Size = 1 := fun d hd => h d (List.mem_cons_of_mem _ hd)
    cases n with
    | zero => simp [takeBytes, hc]
    | succ n => simp [takeBytes, hc, ih hcs]

theorem sum_utf8Size (l : List Char) (h : ∀ c ∈ l, c.utf8Size = 1) :
    (l.map Char.utf8Size).sum = l.length := by
  induction l with
  | nil => rfl
  | cons c cs ih =>
    have hc : c.utf8Size = 1 := h c (List.mem_cons_self _ _)
    have hcs : ∀ d ∈ cs, d.utf8Size = 1 := fun d hd => h d (List.mem_cons_of_mem _ hd)
    simp [hc, ih hcs]; omega

theorem slice8_of_idRegexpMatch {s : String} (h : idRegexpMatch s = true) :
    slice8 s = some (String.mk (s.data.take 8)) := by
  simp only [idRegexpMatch, Bool.and_eq_true, beq_iff_eq, List.all_eq_true] at h
  have h1 : ∀ c ∈ s.data, c.utf8Size = 1 := fun c hc => utf8Size_of_isHexChar (h.2 c hc)
  have hl : goLen s = 40 := by
    unfold goLen
    rw [sum_utf8Size _ h1, h.1]
  simp [slice8, hl, takeBytes_eq_take _ h1]

/-! ## The loop of `importBundle` -/

theorem adds_append (a b : List Event) : adds (a ++ b) = adds a ++ adds b := by
  induction a with
  | nil => rfl
  | cons e a ih => cases e <;> simp [adds, ih]

theorem creates_append (a b : List Event) : creates (a ++ b) = creates a ++ creates b := by
  induction a with
  | nil => rfl
  | cons e a ih => cases e <;> simp [creates, ih]

theorem writes_append (a b : List Event) : writes (a ++ b) = writes a ++ writes b := by
  induction a with
  | nil => rfl
  | cons e a ih => cases e <;> simp [writes, ih]

/-- Staging a member whose id matches the pattern never panics, adds nothing, and
leaves `metadataRead` as it was. -/
theorem stageMember_spec (w : World) (dirname : String) (st : BundleState) (imageId : String)
    (header : Member) (h : idRegexpMatch imageId = true) :
    (stageMember w dirname st imageId header).2.2 = false ∧
    adds (stageMember w dirname st imageId header).1 = [] ∧
    (stageMember w dirname st imageId header).2.1.metadataRead = st.metadataRead := by
  unfold stageMember
  rw [slice8_of_idRegexpMatch h]
  rcases hc : st.fs.create w (pathJoin dirname header.Name) header.body.data with e | fs
  · simp [hc, adds]
  · rcases he : header.body.err with _ | e <;> simp [hc, he, adds]

theorem bundleLoop_no_manifest (w : World) (dirname : String) (err : Option String)
    (members : List Member) (st : BundleState) (hst : st.metadataRead = false)
    (h : ∀ m ∈ members, m.Name ≠ "gif.json") :
    (bundleLoop w dirname err st members).2.2 =
      (match err with
        | none => .error .noMetadata
        | some e => .error (.tar e)) ∧
    adds (bundleLoop w dirname err st members).1 = [] := by
  induction members generalizing st with
  | nil =>
    cases err with
    | none => simp [bundleLoop, hst, adds]
    | some e => simp [bundleLoop, adds]
  | cons m ms ih =>
    have hm : m.Name ≠ "gif.json" := h m (List.mem_cons_self _ _)
    have hms : ∀ x ∈ ms, x.Name ≠ "gif.json" := fun x hx => h x (List.mem_cons_of_mem _ hx)
    by_cases hid : idRegexpMatch (trimGifSuffix m.Name) = true
    · obtain ⟨h1, h2, h3⟩ := stageMember_spec w dirname st (trimGifSuffix m.Name) m hid
      rcases hs : stageMember w dirname st (trimGifSuffix m.Name) m with ⟨ev, st1, p⟩
      rw [hs] at h1 h2 h3
      simp only at h1 h2 h3
      subst h1
      have := ih st1 (h3.trans hst) hms
      simp [bundleLoop, bundleStep, hm, hid, hst, hs, adds_append, h2, this]
    · have := ih st hst hms
      simp [bundleLoop, bundleStep, hm, hid, this]

theorem warnMismatch_events {claimed : String} {img : Image} {ev : List Event}
    (h : warnMismatch claimed img = some ev) : adds ev = [] ∧ creates ev = [] := by
  unfold warnMismatch at h
  split at h
  · rcases hs : slice8 claimed with _ | id8
    · simp [hs] at h
    · simp [hs] at h
      subst h
      simp [adds, creates]
  · simp at h
    subst h
    simp [adds, creates]

theorem creates_drainOne (w : World) (dirname : String) (imageMap : ImageMap) (fs : Staging)
    (id : String) : creates (drainOne w dirname imageMap fs id).1 = [] := by
  unfold drainOne
  rcases hf : FromFile w fs (pathJoin dirname (id ++ ".gif")) with e | img
  · rcases hs : slice8 id with _ | id8 <;> simp [hf, hs, creates]
  · rcases hm : warnMismatch id img with _ | ev1
    · simp [hf, hm, creates]
    · have hev := (warnMismatch_events hm).2
      simp only [hf, hm]
      split
      · split
        · simp [creates_append, hev, creates]
        · split <;> simp [creates_append, hev, creates]
      · simp [creates_append, hev, creates]

theorem creates_drain (w : World) (dirname : String) (imageMap : ImageMap) (fs : Staging)
    (queue : List String) : creates (drain w dirname imageMap fs queue).1 = [] := by
  induction queue with
  | nil => simp [drain, creates]
  | cons id rest ih =>
    have h1 := creates_drainOne w dirname imageMap fs id
    rcases hd : drainOne w dirname imageMap fs id with ⟨ev, p⟩
    rw [hd] at h1
    cases p <;> simp_all [drain, creates_append]

theorem creates_addMember (w : World) (imageMap : ImageMap) (imageId : String)
    (body : Stream) : creates (addMember w imageMap imageId body).1 = [] := by
  unfold addMember
  rcases hb : body.err with _ | e
  · rcases hm : warnMismatch (imageMap.get imageId).Id (FromData w body.data) with _ | ev1
    · simp [hm, creates]
    · have hev := (warnMismatch_events hm).2
      simp [hm, creates_append, hev, creates]
  · rcases hs : slice8 imageId with _ | id8 <;> simp [hs, creates]

theorem bundleLoop_cons_none {w : World} {dirname : String} {err : Option String}
    {st : BundleState} {m : Member} (ms : List Member)
    (h : (bundleStep w dirname st m).exit = none) :
    bundleLoop w dirname err st (m :: ms) =
      ((bundleStep w dirname st m).events ++
          (bundleLoop w dirname err (bundleStep w dirname st m).st ms).1,
        (bundleLoop w dirname err (bundleStep w dirname st m).st ms).2) := by
  simp [bundleLoop, h]

theorem bundleLoop_cons_some {w : World} {dirname : String} {err : Option String}
    {st : BundleState} {m : Member} (ms : List Member) {out : Outcome}
    (h : (bundleStep w dirname st m).exit = some out) :
    bundleLoop w dirname err st (m :: ms) =
      ((bundleStep w dirname st m).events, (bundleStep w dirname st m).st, out) := by
  simp [bundleLoop, h]

theorem bundleStep_skip (w : World) (dirname : String) (st : BundleState) {m : Member}
    (hm : m.Name ≠ "gif.json") (hid : idRegexpMatch (trimGifSuffix m.Name) = false) :
    bundleStep w dirname st m = ⟨[], st, none⟩ := by
  simp [bundleStep, hm, hid]

theorem bundleStep_add (w : World) (dirname : String) (st : BundleState) {m : Member}
    (hm : m.Name ≠ "gif.json") (hid : idRegexpMatch (trimGifSuffix m.Name) = true)
    (hst : st.metadataRead = true) :
    bundleStep w dirname st m =
      ⟨(addMember w st.imageMap (trimGifSuffix m.Name) m.body).1, st,
        if (addMember w st.imageMap (trimGifSuffix m.Name) m.body).2 then some .panic
        else none⟩ := by
  rcases ha : addMember w st.imageMap (trimGifSuffix m.Name) m.body with ⟨ev, p⟩
  cases p <;> simp [bundleStep, hm, hid, hst, ha]

theorem bundleStep_stage (w : World) (dirname : String) (st : BundleState) {m : Member}
    (hm : m.Name ≠ "gif.json") (hid : idRegexpMatch (trimGifSuffix m.Name) = true)
    (hst : st.metadataRead = false) :
    bundleStep w dirname st m =
      ⟨(stageMember w dirname st (trimGifSuffix m.Name) m).1,
        (stageMember w dirname st (trimGifSuffix m.Name) m).2.1, none⟩ := by
  have h := (stageMember_spec w dirname st (trimGifSuffix m.Name) m hid).1
  rcases ha : stageMember w dirname st (trimGifSuffix m.Name) m with ⟨ev, st1, p⟩
  rw [ha] at h
  simp only at h
  subst h
  simp [bundleStep, hm, hid, hst, ha]

theorem bundleStep_manifest_error {w : World} {dirname : String} {st : BundleState}
    {m : Member} {e : String} (hm : m.Name = "gif.json")
    (hp : w.parseMetadata m.body = .error e) :
    bundleStep w dirname st m = ⟨[], st, some (.error (.metadata e))⟩ := by
  simp [bundleStep, hm, hp]

theorem bundleStep_manifest_ok (w : World) (dirname : String) (st : BundleState)
    {m : Member} {images : List ExportedImage} (hm : m.Name = "gif.json")
    (hp : w.parseMetadata m.body = .ok images) :
    bundleStep w dirname st m =
      if (drain w dirname (st.imageMap.putAll images) st.fs st.imageQueue).2 then
        ⟨(drain w dirname (st.imageMap.putAll images) st.fs st.imageQueue).1,
          { st with metadataRead := true, imageMap := st.imageMap.putAll images },
          some .panic⟩
      else
        ⟨(drain w dirname (st.imageMap.putAll images) st.fs st.imageQueue).1 ++
            [.removeAll dirname],
          { imageMap := st.imageMap.putAll images, metadataRead := true, imageQueue := [],
            fs := ⟨false, []⟩ },
          none⟩ := by
  rcases hd : drain w dirname (st.imageMap.putAll images) st.fs st.imageQueue with ⟨ev, p⟩
  cases p <;> simp [bundleStep, hm, hp, hd, Staging.removeAll]

/-- Once the metadata has been read, the loop creates no file, and a staging directory
that is gone stays gone. -/
theorem bundleLoop_after_metadata (w : World) (dirname : String) (err : Option String)
    (members : List Member) (st : BundleState) (hst : st.metadataRead = true) :
    creates (bundleLoop w dirname err st members).1 = [] ∧
    (st.fs = ⟨false, []⟩ → (bundleLoop w dirname err st members).2.1.fs = ⟨false, []⟩) := by
  induction members generalizing st with
  | nil => cases err <;> simp [bundleLoop, hst, creates]
  | cons m ms ih =>
    by_cases hm : m.Name = "gif.json"
    · rcases hp : w.parseMetadata m.body with e | images
      · rw [bundleLoop_cons_some ms (by rw [bundleStep_manifest_error hm hp]),
          bundleStep_manifest_error hm hp]
        simp [creates]
      · have hc := creates_drain w dirname (st.imageMap.putAll images) st.fs st.imageQueue
        have hstep := bundleStep_manifest_ok w dirname st hm hp
        by_cases hd : (drain w dirname (st.imageMap.putAll images) st.fs st.imageQueue).2 = true
        · rw [if_pos hd] at hstep
          rw [bundleLoop_cons_some ms (by rw [hstep]), hstep]
          exact ⟨hc, fun h => h⟩
        · rw [if_neg hd] at hstep
          rw [bundleLoop_cons_none ms (by rw [hstep]), hstep]
          have := ih { imageMap := st.imageMap.putAll images, metadataRead := true,
                       imageQueue := [], fs := ⟨false, []⟩ } rfl
          exact ⟨by simp [creates_append, creates, hc, this.1], fun _ => this.2 rfl⟩
    · by_cases hid : idRegexpMatch (trimGifSuffix m.Name) = true
      · have hc := creates_addMember w st.imageMap (trimGifSuffix m.Name) m.body
        have hstep := bundleStep_add w dirname st hm hid hst
        by_cases hp : (addMember w st.imageMap (trimGifSuffix m.Name) m.body).2 = true
        · rw [if_pos hp] at hstep
          rw [bundleLoop_cons_some ms (by rw [hstep]), hstep]
          exact ⟨hc, fun h => h⟩
        · rw [if_neg hp] at hstep
          rw [bundleLoop_cons_none ms (by rw [hstep]), hstep]
          have := ih st hst
          exact ⟨by simp [creates_append, hc, this.1], this.2⟩
      · have hstep := bundleStep_skip w dirname st hm
          (by simpa using hid)
        rw [bundleLoop_cons_none ms (by rw [hstep]), hstep]
        have := ih st hst
        exact ⟨by simp [this.1], this.2⟩

/-- While the metadata has not been read: a run that ends in `nil` or in the missing
metadata error removes the staging directory, and creates no file after that. -/
theorem bundleLoop_before_metadata (w : World) (dirname : String) (err : Option String)
    (members : List Member) (st : BundleState) (hst : st.metadataRead = false)
    (hout : (bundleLoop w dirname err st members).2.2 = .ok ∨
      (bundleLoop w dirname err st members).2.2 = .error .noMetadata) :
    (∃ pre post, (bundleLoop w dirname err st members).1 = pre ++ .removeAll dirname :: post ∧
      creates post = []) ∧
    (bundleLoop w dirname err st members).2.1.fs = ⟨false, []⟩ := by
  induction members generalizing st with
  | nil =>
    cases err with
    | none =>
      refine ⟨⟨[], [], ?_, rfl⟩, ?_⟩ <;> simp [bundleLoop, hst, Staging.removeAll]
    | some e => simp [bundleLoop] at hout
  | cons m ms ih =>
    by_cases hm : m.Name = "gif.json"
    · rcases hp : w.parseMetadata m.body with e | images
      · rw [bundleLoop_cons_some ms (by rw [bundleStep_manifest_error hm hp])] at hout
        simp at hout
      · have hstep := bundleStep_manifest_ok w dirname st hm hp
        by_cases hd : (drain w dirname (st.imageMap.putAll images) st.fs st.imageQueue).2 = true
        · rw [if_pos hd] at hstep
          rw [bundleLoop_cons_some ms (by rw [hstep])] at hout
          simp at hout
        · rw [if_neg hd] at hstep
          rw [bundleLoop_cons_none ms (by rw [hstep]), hstep]
          have := bundleLoop_after_metadata w dirname err ms
            { imageMap := st.imageMap.putAll images, metadataRead := true,
              imageQueue := [], fs := ⟨false, []⟩ } rfl
          refine ⟨⟨(drain w dirname (st.imageMap.putAll images) st.fs st.imageQueue).1, _,
            ?_, this.1⟩, this.2 rfl⟩
          simp
    · by_cases hid : idRegexpMatch (trimGifSuffix m.Name) = true
      · have hstep := bundleStep_stage w dirname st hm hid hst
        have hmr := (stageMember_spec w dirname st (trimGifSuffix m.Name) m hid).2.2
        rw [bundleLoop_cons_none ms (by rw [hstep]), hstep] at hout ⊢
        obtain ⟨⟨pre, post, h1, h2⟩, h3⟩ := ih _ (hmr.trans hst) hout
        refine ⟨⟨(stageMember w dirname st (trimGifSuffix m.Name) m).1 ++ pre, post, ?_, h2⟩, h3⟩
        simp only [h1, List.append_assoc]
      · have hstep := bundleStep_skip w dirname st hm
          (by simpa using hid)
        rw [bundleLoop_cons_none ms (by rw [hstep]), hstep] at hout ⊢
        obtain ⟨⟨pre, post, h1, h2⟩, h3⟩ := ih _ hst hout
        exact ⟨⟨pre, post, by simpa using h1, h2⟩, h3⟩

/-! ## Paths -/

theorem splitSlash_ne_nil (l : List Char) : splitSlash l ≠ [] := by
  induction l with
  | nil => simp [splitSlash]
  | cons c cs ih =>
    unfold splitSlash
    split
    · simp
    · split <;> simp

theorem splitSlash_of_not_mem {n : List Char} (h : '/' ∉ n) : splitSlash n = [n] := by
  induction n with
  | nil => rfl
  | cons c cs ih =>
    have hc : c ≠ '/' := fun e => h (e ▸ List.mem_cons_self _ _)
    have hcs : '/' ∉ cs := fun e => h (List.mem_cons_of_mem _ e)
    simp [splitSlash, hc, ih hcs]

theorem splitSlash_append (d n : List Char) :
    splitSlash (d ++ '/' :: n) = splitSlash d ++ splitSlash n := by
  induction d with
  | nil => simp [splitSlash]
  | cons c cs ih =>
    by_cases hc : c = '/'
    · simp [splitSlash, hc, ih]
    · rcases hs : splitSlash cs with _ | ⟨h, t⟩
      · exact absurd hs (splitSlash_ne_nil cs)
      · simp [splitSlash, hc, ih, hs]

theorem joinSlash_cons_append (c : List Char) (cs : List (List Char)) (n : List Char) :
    joinSlash (c :: (cs ++ [n])) = joinSlash (c :: cs) ++ '/' :: n := by
  induction cs generalizing c with
  | nil => simp [joinSlash]
  | cons c2 cs2 ih =>
    show c ++ '/' :: joinSlash (c2 :: (cs2 ++ [n])) =
      (c ++ '/' :: joinSlash (c2 :: cs2)) ++ '/' :: n
    rw [ih c2]
    simp

theorem joinSlash_append_singleton (l : List (List Char)) (n : List Char) :
    joinSlash (l ++ [n]) = if l = [] then n else joinSlash l ++ '/' :: n := by
  cases l with
  | nil => simp [joinSlash]
  | cons c cs => simpa using joinSlash_cons_append c cs n

theorem cleanStep_plain (rooted : Bool) (stack : List (List Char)) {n : List Char}
    (h1 : n ≠ []) (h2 : n ≠ ['.']) (h3 : n ≠ ['.', '.']) :
    cleanStep rooted stack n = n :: stack := by
  simp [cleanStep, h1, h2, h3]

theorem pathClean_child (d n : List Char) (hd : d ≠ []) (hs : '/' ∉ n) (h1 : n ≠ [])
    (h2 : n ≠ ['.']) (h3 : n ≠ ['.', '.']) :
    pathClean (d ++ '/' :: n) =
      (if d.head? == some '/' then ['/'] else []) ++
        (if ((splitSlash d).foldl (cleanStep (d.head? == some '/')) []).reverse = [] then []
          else joinSlash ((splitSlash d).foldl (cleanStep (d.head? == some '/')) []).reverse
            ++ ['/']) ++ n := by
  have hhead : (d ++ '/' :: n).head? = d.head? := by
    cases d with
    | nil => exact absurd rfl hd
    | cons c cs => rfl
  have hne : d ++ '/' :: n ≠ [] := by simp
  unfold pathClean
  rw [if_neg hne]
  simp only [hhead, splitSlash_append, splitSlash_of_not_mem hs, List.foldl_append,
    List.foldl_cons, List.foldl_nil, cleanStep_plain _ _ h1 h2 h3, List.reverse_cons,
    joinSlash_append_singleton]
  generalize (d.head? == some '/') = r
  generalize List.foldl (cleanStep r) [] (splitSlash d) = S
  cases r <;> rcases S with _ | ⟨s, S⟩ <;> simp [h1]

theorem pathClean_plain (n : List Char) (hs : '/' ∉ n) (h1 : n ≠ [])
    (h2 : n ≠ ['.']) (h3 : n ≠ ['.', '.']) : pathClean n = n := by
  have hhead : (n.head? == some '/') = false := by
    cases n with
    | nil => rfl
    | cons c cs =>
      have hc : c ≠ '/' := fun e => hs (e ▸ List.mem_cons_self _ _)
      simpa using hc
  unfold pathClean
  rw [if_neg h1]
  simp [hhead, splitSlash_of_not_mem hs, cleanStep_plain _ _ h1 h2 h3, joinSlash, h1]

/-- The join of a directory and a plain name is a string that depends on the directory
alone, followed by the name. -/
theorem pathJoin_plain (dir name : String) (h : plainName name) :
    pathJoin dir name = String.mk (joinPrefix dir ++ name.data) := by
  obtain ⟨hs, h1, h2, h3⟩ := h
  have hname : name ≠ "" := fun e => h1 (by rw [e])
  by_cases hd : dir = ""
  · simp [pathJoin, joinPrefix, hd, hname, pathClean_plain _ hs h1 h2 h3]
  · have hdd : dir.data ≠ [] := fun e => hd (String.ext e)
    simp only [pathJoin, joinPrefix, hd, if_false, pathClean_child _ _ hdd hs h1 h2 h3]

theorem splitSlash_no_slash (d : List Char) : ∀ x ∈ splitSlash d, '/' ∉ x := by
  induction d with
  | nil => simp [splitSlash]
  | cons c cs ih =>
    by_cases hc : c = '/'
    · intro x hx
      simp only [splitSlash, hc, if_true, List.mem_cons] at hx
      rcases hx with hx | hx
      · simp [hx]
      · exact ih x hx
    · rcases hs : splitSlash cs with _ | ⟨h, t⟩
      · exact absurd hs (splitSlash_ne_nil cs)
      · rw [hs] at ih
        intro x hx
        simp only [splitSlash, hc, if_false, hs, List.mem_cons] at hx
        rcases hx with hx | hx
        · subst hx
          have := ih h (List.mem_cons_self _ _)
          simp only [List.mem_cons, not_or]
          exact ⟨fun e => hc e.symm, this⟩
        · exact ih x (List.mem_cons_of_mem _ hx)

/-- The elements that `path.Clean` keeps: not empty, not `.`, without a slash. -/
theorem cleanStep_kept (rooted : Bool) (stack : List (List Char)) (c : List Char)
    (hc : '/' ∉ c) (h : ∀ x ∈ stack, x ≠ [] ∧ x ≠ ['.'] ∧ '/' ∉ x) :
    ∀ x ∈ cleanStep rooted stack c, x ≠ [] ∧ x ≠ ['.'] ∧ '/' ∉ x := by
  unfold cleanStep
  by_cases h1 : c = [] ∨ c = ['.']
  · rw [if_pos h1]
    exact h
  · rw [if_neg h1]
    simp only [not_or] at h1
    by_cases h2 : c = ['.', '.']
    · rw [if_pos h2]
      cases stack with
      | nil =>
        cases rooted
        · intro x hx
          simp only [Bool.false_eq_true, if_false, List.mem_singleton] at hx
          subst hx
          exact ⟨h1.1, h1.2, hc⟩
        · simp
      | cons top rest =>
        by_cases h3 : top = ['.', '.']
        · simp only [h3, if_true]
          intro x hx
          rcases List.mem_cons.mp hx with e | hx
          · subst e
            exact ⟨h1.1, h1.2, hc⟩
          · exact h x (h3 ▸ hx)
        · simp only [h3, if_false]
          exact fun x hx => h x (List.mem_cons_of_mem _ hx)
    · rw [if_neg h2]
      intro x hx
      rcases List.mem_cons.mp hx with e | hx
      · subst e
        exact ⟨h1.1, h1.2, hc⟩
      · exact h x hx

theorem foldl_cleanStep_kept (rooted : Bool) (cs : List (List Char))
    (stack : List (List Char)) (hcs : ∀ c ∈ cs, '/' ∉ c)
    (h : ∀ x ∈ stack, x ≠ [] ∧ x ≠ ['.'] ∧ '/' ∉ x) :
    ∀ x ∈ cs.foldl (cleanStep rooted) stack, x ≠ [] ∧ x ≠ ['.'] ∧ '/' ∉ x := by
  induction cs generalizing stack with
  | nil => exact h
  | cons c cs ih =>
    exact ih _ (fun d hd => hcs d (List.mem_cons_of_mem _ hd))
      (cleanStep_kept rooted stack c (hcs c (List.mem_cons_self _ _)) h)

theorem joinSlash_kept (S : List (List Char)) (hS : S ≠ [])
    (h : ∀ x ∈ S, x ≠ [] ∧ x ≠ ['.'] ∧ '/' ∉ x) :
    joinSlash S ≠ [] ∧ joinSlash S ≠ ['.'] ∧ joinSlash S ≠ ['/'] := by
  cases S with
  | nil => exact absurd rfl hS
  | cons x xs =>
    obtain ⟨h1, h2, h3⟩ := h x (List.mem_cons_self _ _)
    cases xs with
    | nil =>
      refine ⟨h1, h2, ?_⟩
      intro e
      simp only [joinSlash] at e
      rw [e] at h3
      simp at h3
    | cons y ys =>
      have hlen : 2 ≤ (joinSlash (x :: y :: ys)).length := by
        simp only [joinSlash, List.length_append, List.length_cons]
        have : 0 < x.length := List.length_pos.mpr h1
        omega
      refine ⟨?_, ?_, ?_⟩ <;>
        · intro e
          rw [e] at hlen
          simp at hlen

theorem joinPrefix_eq_aux (r : Bool) (S : List (List Char)) (n : List Char)
    (h : ∀ x ∈ S, x ≠ [] ∧ x ≠ ['.'] ∧ '/' ∉ x) :
    String.mk ((if r then ['/'] else []) ++ (if S = [] then [] else joinSlash S ++ ['/']) ++ n) =
      childPath (String.mk (if r then '/' :: joinSlash S else if joinSlash S = [] then ['.']
        else joinSlash S)) (String.mk n) := by
  by_cases hS : S = []
  · subst hS
    cases r
    · simp only [joinSlash, Bool.false_eq_true, if_false, if_true, List.append_nil,
        List.nil_append]
      rfl
    · simp only [joinSlash, if_true, List.append_nil]
      rfl
  · obtain ⟨j1, j2, j3⟩ := joinSlash_kept S hS h
    cases r
    · simp only [Bool.false_eq_true, if_false, hS, j1, List.nil_append]
      have e1 : (String.mk (joinSlash S)) ≠ "/" := fun e => j3 (congrArg String.data e)
      have e2 : (String.mk (joinSlash S)) ≠ "." := fun e => j2 (congrArg String.data e)
      simp only [childPath, e1, e2, if_false]
      apply String.ext
      simp [String.data_append]
    · simp only [if_true, hS, if_false]
      have e1 : (String.mk ('/' :: joinSlash S)) ≠ "/" := by
        intro e
        have := congrArg String.data e
        simp at this
        exact j1 this
      have e2 : (String.mk ('/' :: joinSlash S)) ≠ "." := by
        intro e
        have := congrArg String.data e
        simp at this
      simp only [childPath, e1, e2, if_false]
      apply String.ext
      simp [String.data_append]

/-- The join of a directory and a plain name is the entry of that name in the
directory, whatever the spelling of the directory. -/
theorem pathJoin_eq_childPath (dir name : String) (h : plainName name) :
    pathJoin dir name = childPath (String.mk (pathClean dir.data)) name := by
  rw [pathJoin_plain dir name h]
  by_cases hd : dir = ""
  · subst hd
    have : joinPrefix "" = [] := by decide
    rw [this]
    simp [childPath, pathClean]
  · have hdd : dir.data ≠ [] := fun e => hd (String.ext e)
    unfold joinPrefix pathClean
    rw [if_neg hd, if_neg hdd]
    exact joinPrefix_eq_aux _ _ name.data
      (fun x hx => foldl_cleanStep_kept _ _ [] (splitSlash_no_slash dir.data) (by simp) x
        (List.mem_reverse.mp hx))

theorem isHexChar_slash : isHexChar '/' = false := by decide

/-- A name that passes the name check is forty hexadecimal digits, with or without the
suffix `.gif`. -/
theorem name_of_match {name : String} (h : idRegexpMatch (trimGifSuffix name) = true) :
    ∃ id : List Char, id.length = 40 ∧ (∀ c ∈ id, isHexChar c = true) ∧
      (trimGifSuffix name).data = id ∧
      (name.data = id ∨ name.data = id ++ ['.', 'g', 'i', 'f']) := by
  simp only [idRegexpMatch, Bool.and_eq_true, beq_iff_eq, List.all_eq_true] at h
  refine ⟨(trimGifSuffix name).data, h.1, h.2, rfl, ?_⟩
  unfold trimGifSuffix
  by_cases hs : ".gif".data.isSuffixOf name.data = true
  · right
    rw [if_pos hs]
    rw [List.isSuffixOf_iff_suffix] at hs
    obtain ⟨t, ht⟩ := hs
    rw [← ht]
    simp
  · left
    rw [if_neg hs]

theorem plainName_of_match {name : String} (h : idRegexpMatch (trimGifSuffix name) = true) :
    plainName name := by
  obtain ⟨id, hlen, hhex, -, hname⟩ := name_of_match h
  have hslash : '/' ∉ id := fun hm => by
    have := hhex _ hm
    rw [isHexChar_slash] at this
    exact absurd this (by decide)
  rcases hname with hn | hn
  · refine ⟨by rw [hn]; exact hslash, ?_, ?_, ?_⟩ <;>
      · intro e
        rw [hn] at e
        rw [e] at hlen
        simp at hlen
  · refine ⟨?_, ?_, ?_, ?_⟩
    · rw [hn]
      simp only [List.mem_append, not_or]
      exact ⟨hslash, by decide⟩
    all_goals
      intro e
      rw [hn] at e
      have := congrArg List.length e
      simp [hlen] at this

/-! ## The files that `importBundle` creates -/

theorem creates_stageMember (w : World) (dirname : String) (st : BundleState) (imageId : String)
    (header : Member) :
    ∀ p ∈ creates (stageMember w dirname st imageId header).1, p = pathJoin dirname header.Name := by
  unfold stageMember
  rcases hc : st.fs.create w (pathJoin dirname header.Name) header.body.data with e | fs
  · rcases hs : slice8 imageId with _ | id8 <;> simp [hc, hs, creates]
  · rcases he : header.body.err with _ | e
    · simp [hc, he, creates]
    · rcases hs : slice8 imageId with _ | id8 <;> simp [hc, he, hs, creates]

theorem bundleLoop_creates (w : World) (dirname : String) (err : Option String)
    (members : List Member) (st : BundleState) :
    ∀ p ∈ creates (bundleLoop w dirname err st members).1,
      ∃ m ∈ members, idRegexpMatch (trimGifSuffix m.Name) = true ∧
        p = pathJoin dirname m.Name := by
  induction members generalizing st with
  | nil =>
    intro p hp
    cases err <;> cases hmr : st.metadataRead <;> simp [bundleLoop, hmr, creates] at hp
  | cons m ms ih =>
    cases hst : st.metadataRead with
    | true =>
      intro p hp
      rw [(bundleLoop_after_metadata w dirname err (m :: ms) st hst).1] at hp
      simp at hp
    | false =>
      intro p hp
      by_cases hm : m.Name = "gif.json"
      · rcases hpm : w.parseMetadata m.body with e | images
        · rw [bundleLoop_cons_some ms (by rw [bundleStep_manifest_error hm hpm]),
            bundleStep_manifest_error hm hpm] at hp
          simp [creates] at hp
        · have hc := creates_drain w dirname (st.imageMap.putAll images) st.fs st.imageQueue
          have hstep := bundleStep_manifest_ok w dirname st hm hpm
          by_cases hd :
              (drain w dirname (st.imageMap.putAll images) st.fs st.imageQueue).2 = true
          · rw [if_pos hd] at hstep
            rw [bundleLoop_cons_some ms (by rw [hstep]), hstep] at hp
            simp [hc] at hp
          · rw [if_neg hd] at hstep
            rw [bundleLoop_cons_none ms (by rw [hstep]), hstep] at hp
            simp only [creates_append, hc, creates, List.nil_append] at hp
            obtain ⟨x, hx, h1, h2⟩ := ih _ p hp
            exact ⟨x, List.mem_cons_of_mem _ hx, h1, h2⟩
      · by_cases hid : idRegexpMatch (trimGifSuffix m.Name) = true
        · have hstep := bundleStep_stage w dirname st hm hid hst
          rw [bundleLoop_cons_none ms (by rw [hstep]), hstep] at hp
          simp only [creates_append, List.mem_append] at hp
          rcases hp with hp | hp
          · exact ⟨m, List.mem_cons_self _ _, hid, creates_stageMember _ _ _ _ _ p hp⟩
          · obtain ⟨x, hx, h1, h2⟩ := ih _ p hp
            exact ⟨x, List.mem_cons_of_mem _ hx, h1, h2⟩
        · have hstep := bundleStep_skip w dirname st hm
            (by simpa using hid)
          rw [bundleLoop_cons_none ms (by rw [hstep]), hstep] at hp
          simp only [List.nil_append] at hp
          obtain ⟨x, hx, h1, h2⟩ := ih _ p hp
          exact ⟨x, List.mem_cons_of_mem _ hx, h1, h2⟩

/-! ## Missing metadata, and the staging directory -/

/-- C1. An archive with no member named `gif.json` makes `importBundle` return an error,
and `AddInterface` is never called. When the staging directory could be made and the
archive is read to its end, the error is the one of the missing `gif.json`. -/
theorem importBundle_without_manifest (w : World) (archive : Archive)
    (h : ∀ m ∈ archive.members, m.Name ≠ "gif.json") :
    (∃ e, (importBundle w archive).2.2 = .error e) ∧
    adds (importBundle w archive).1 = [] ∧
    (∀ dirname, w.tempDir = .ok dirname → archive.err = none →
      (importBundle w archive).2.2 = .error .noMetadata) := by
  unfold importBundle
  rcases ht : w.tempDir with e | dirname
  · simp [adds]
  · obtain ⟨h1, h2⟩ :=
      bundleLoop_no_manifest w dirname archive.err archive.members BundleState.init rfl h
    refine ⟨?_, by simpa [adds] using h2, ?_⟩
    · rw [h1]
      cases archive.err <;> simp
    · intro d _ herr
      rw [herr] at h1
      show (bundleLoop w dirname archive.err BundleState.init archive.members).2.2 = _
      rw [herr]
      exact h1

/-- C8. When `importBundle` returns `nil` or the missing `gif.json` error, the staging
directory it made has been removed when it returns, and no file is created after the
removal. -/
theorem importBundle_removes_staging (w : World) (archive : Archive)
    (h : (importBundle w archive).2.2 = .ok ∨
      (importBundle w archive).2.2 = .error .noMetadata) :
    ∃ dirname st pre post,
      w.tempDir = .ok dirname ∧
      (importBundle w archive).2.1 = some st ∧
      st.fs = ⟨false, []⟩ ∧
      (importBundle w archive).1 = pre ++ .removeAll dirname :: post ∧
      creates post = [] := by
  unfold importBundle at h ⊢
  rcases ht : w.tempDir with e | dirname
  · simp [ht] at h
  · simp only [ht] at h ⊢
    obtain ⟨⟨pre, post, h1, h2⟩, h3⟩ :=
      bundleLoop_before_metadata w dirname archive.err archive.members BundleState.init rfl h
    exact ⟨dirname, _, .mkTemp dirname :: pre, post, rfl, rfl, h3, by simp [h1], h2⟩

/-- C10. A member name that passes the name check of `importBundle` is one plain path
element (no slash, not `.` or `..`), so its staging path `path.Join(dirname, name)` is
the entry of that name in the staging directory; and every file that `importBundle`
creates is the entry, in the staging directory, of a member name that passes the check. -/
theorem staging_path_is_child (w : World) (archive : Archive) (dirname : String)
    (htemp : w.tempDir = .ok dirname) :
    (∀ name : String, idRegexpMatch (trimGifSuffix name) = true →
      plainName name ∧
        pathJoin dirname name = childPath (String.mk (pathClean dirname.data)) name) ∧
    (∀ p ∈ creates (importBundle w archive).1,
      ∃ m ∈ archive.members, idRegexpMatch (trimGifSuffix m.Name) = true ∧
        p = childPath (String.mk (pathClean dirname.data)) m.Name) := by
  have key : ∀ name : String, idRegexpMatch (trimGifSuffix name) = true →
      plainName name ∧
        pathJoin dirname name = childPath (String.mk (pathClean dirname.data)) name :=
    fun name hn =>
      ⟨plainName_of_match hn, pathJoin_eq_childPath dirname name (plainName_of_match hn)⟩
  refine ⟨key, ?_⟩
  intro p hp
  simp only [importBundle, htemp, creates] at hp
  obtain ⟨m, hm, h1, h2⟩ :=
    bundleLoop_creates w dirname archive.err archive.members BundleState.init p hp
  exact ⟨m, hm, h1, h2.trans (key m.Name h1).2⟩

/-! ## The manifest import -/

theorem isErrorLine_errorLine (id8 msg : String) : isErrorLine (errorLine id8 msg) = true := by
  simp [isErrorLine, errorLine, String.data_append, List.isPrefixOf]

theorem isErrorLine_mismatchLine (id8 newId : String) :
    isErrorLine (mismatchLine id8 newId) = false := by
  simp [isErrorLine, mismatchLine, String.data_append, List.isPrefixOf]

theorem isErrorLine_dateLine (id8 addedAt : String) :
    isErrorLine (dateLine id8 addedAt) = false := by
  simp [isErrorLine, dateLine, String.data_append, List.isPrefixOf]

theorem warnMismatch_of_match {claimed : String} (img : Image)
    (h : idRegexpMatch claimed = true) :
    ∃ ev, warnMismatch claimed img = some ev ∧ adds ev = [] ∧
      (writes ev).filter isErrorLine = [] := by
  unfold warnMismatch
  rw [slice8_of_idRegexpMatch h]
  split
  · exact ⟨_, rfl, rfl, by simp [writes, isErrorLine_mismatchLine]⟩
  · exact ⟨_, rfl, rfl, rfl⟩

theorem FromUrl_Url {w : World} {url : String} {img : Image} (h : FromUrl w url = .ok img) :
    img.Url = url := by
  unfold FromUrl at h
  rcases hg : w.httpGet url with e | response
  · simp [hg] at h
  · simp only [hg] at h
    split at h
    · simp at h
    · rcases hb : response.Body.err with _ | e
      · simp only [hb] at h
        cases h
        rfl
      · simp [hb] at h

theorem FromUrl_status {w : World} {url : String} {response : Response}
    (hg : w.httpGet url = .ok response) (hs : response.StatusCode ≥ 300) :
    FromUrl w url = .error (response.Proto ++ " " ++ response.Status) := by
  simp [FromUrl, hg, hs]

theorem importUrl_spec (w : World) (exported : ExportedImage)
    (h : idRegexpMatch exported.Id = true) :
    (importUrl w exported).2 = false ∧
    (adds (importUrl w exported).1).map Image.key =
      (match FromUrl w exported.Url with
        | .ok img => [(img.Id, exported.Url, exported.Tags, img.Data)]
        | .error _ => []) ∧
    (writes (importUrl w exported).1).filter isErrorLine =
      (match FromUrl w exported.Url with
        | .ok _ => []
        | .error e => [errorLine (String.mk (exported.Id.data.take 8)) e]) := by
  unfold importUrl
  rcases hf : FromUrl w exported.Url with e | img
  · simp [slice8_of_idRegexpMatch h, adds, writes, isErrorLine_errorLine]
  · obtain ⟨ev1, hw, ha, hwr⟩ := warnMismatch_of_match img h
    have hurl := FromUrl_Url hf
    simp only [hw, slice8_of_idRegexpMatch h]
    by_cases hadd : exported.AddedAt = ""
    · simp [hadd, adds_append, writes_append, ha, hwr, adds, writes, Image.key, hurl]
    · simp only [bne_iff_ne, ne_eq, hadd, not_false_eq_true, if_true,
        Image.SetAddedAtFromString]
      rcases hp : w.parseTime exported.AddedAt with e | t
      · simp [adds_append, writes_append, ha, hwr, adds, writes, Image.key, hurl,
          isErrorLine_dateLine]
      · simp [adds_append, writes_append, ha, hwr, adds, writes, Image.key, hurl]

/-- C7. On a manifest whose ids are forty hexadecimal digits, `importUrls` goes through
every record in order and does not abort: the images it adds are those of the records
whose fetch succeeds, each once, with the record's url and tags; the error lines it
writes are one for each record whose fetch fails; and a response with a status of 300
or more is a failed fetch. -/
theorem importUrls_isolates_failures (w : World) (images : List ExportedImage)
    (h : ∀ exported ∈ images, idRegexpMatch exported.Id = true) :
    ((importUrls w images).2 = .ok ∧
    (adds (importUrls w images).1).map Image.key =
      images.flatMap (fun exported =>
        match FromUrl w exported.Url with
        | .ok img => [(img.Id, exported.Url, exported.Tags, img.Data)]
        | .error _ => []) ∧
    (writes (importUrls w images).1).filter isErrorLine =
      images.flatMap (fun exported =>
        match FromUrl w exported.Url with
        | .ok _ => []
        | .error e => [errorLine (String.mk (exported.Id.data.take 8)) e])) ∧
    (∀ exported ∈ images, ∀ response : Response,
      w.httpGet exported.Url = .ok response → response.StatusCode ≥ 300 →
        FromUrl w exported.Url = .error (response.Proto ++ " " ++ response.Status)) := by
  refine ⟨?_, fun _ _ _ hg hs => FromUrl_status hg hs⟩
  induction images with
  | nil => simp [importUrls, adds, writes]
  | cons exported rest ih =>
    obtain ⟨h1, h2, h3⟩ := importUrl_spec w exported (h exported (List.mem_cons_self _ _))
    obtain ⟨i1, i2, i3⟩ := ih fun x hx => h x (List.mem_cons_of_mem _ hx)
    rcases hi : importUrl w exported with ⟨ev, p⟩
    rw [hi] at h1 h2 h3
    simp only at h1 h2 h3
    subst h1
    simp only [importUrls, hi, adds_append, writes_append, List.map_append, List.filter_append,
      List.flatMap_cons, h2, h3, i1, i2, i3, and_self]

/-! ## The order of the members -/

theorem trimGifSuffix_append (id : String) : trimGifSuffix (id ++ ".gif") = id := by
  have hs : ".gif".data.isSuffixOf (id ++ ".gif").data = true := by
    rw [List.isSuffixOf_iff_suffix, String.data_append]
    exact List.suffix_append _ _
  unfold trimGifSuffix
  rw [if_pos hs]
  apply String.ext
  simp [String.data_append]

theorem contentName_ne_manifest (id : String) : id ++ ".gif" ≠ "gif.json" := by
  intro e
  have := congrArg (fun s : String => s.data.reverse.head?) e
  simp [String.data_append] at this

theorem plainName_content {id : String} (h : idRegexpMatch id = true) :
    plainName (id ++ ".gif") :=
  plainName_of_match (by rw [trimGifSuffix_append]; exact h)

theorem pathJoin_content_injective (dirname : String) {a b : String}
    (ha : idRegexpMatch a = true) (hb : idRegexpMatch b = true)
    (h : pathJoin dirname (a ++ ".gif") = pathJoin dirname (b ++ ".gif")) : a = b := by
  rw [pathJoin_plain _ _ (plainName_content ha), pathJoin_plain _ _ (plainName_content hb)] at h
  have h2 := congrArg String.data h
  simp only [String.data_append, List.append_cancel_left_eq, List.append_cancel_right_eq] at h2
  exact String.ext h2

theorem lookup_putAll (images : List ExportedImage) (k : String) (m : ImageMap)
    (h : k ∈ images.map ExportedImage.Id ∨ ∃ r, m.lookup k = some r ∧ r.Id = k) :
    ∃ r, (ImageMap.putAll m images).lookup k = some r ∧ r.Id = k := by
  induction images generalizing m with
  | nil =>
    rcases h with h | h
    · simp at h
    · exact h
  | cons e rest ih =>
    have hstep : ImageMap.putAll m (e :: rest) = ImageMap.putAll ((e.Id, e) :: m) rest := rfl
    rw [hstep]
    apply ih
    by_cases hk : k = e.Id
    · right
      exact ⟨e, by simp [List.lookup_cons, hk], hk.symm⟩
    · have hb : (k == e.Id) = false := by simpa using hk
      rcases h with h | ⟨r, h1, h2⟩
      · left
        simp only [List.map_cons, List.mem_cons] at h
        exact h.resolve_left hk
      · right
        exact ⟨r, by simp [List.lookup_cons, hb, h1], h2⟩

theorem get_putAll_Id (images : List ExportedImage) {k : String}
    (h : k ∈ images.map ExportedImage.Id) : ((ImageMap.putAll [] images).get k).Id = k := by
  obtain ⟨r, h1, h2⟩ := lookup_putAll images k [] (Or.inl h)
  simp [ImageMap.get, h1, h2]

/-- With the staged bytes on file and the record in the map, emptying the queue adds
for an id what the direct path adds for the member of that id. -/
theorem drainOne_eq_addMember (w : World) (dirname : String) (imageMap : ImageMap)
    (fs : Staging) (id : String) (data : Bytes) (hid : idRegexpMatch id = true)
    (hfile : fs.files.lookup (pathJoin dirname (id ++ ".gif")) = some data)
    (hget : (imageMap.get id).Id = id) :
    (drainOne w dirname imageMap fs id).2 = false ∧
    (addMember w imageMap id ⟨data, none⟩).2 = false ∧
    adds (drainOne w dirname imageMap fs id).1 = adds (addMember w imageMap id ⟨data, none⟩).1 := by
  obtain ⟨ev1, hw, ha, -⟩ := warnMismatch_of_match (FromData w data) hid
  have hf : FromFile w fs (pathJoin dirname (id ++ ".gif")) = .ok (FromData w data) := by
    simp [FromFile, Staging.readFile, hfile]
  unfold drainOne addMember
  simp only [hf, hw, hget, slice8_of_idRegexpMatch hid]
  by_cases hadd : (imageMap.get id).AddedAt = ""
  · simp [hadd, adds_append, ha, adds]
  · simp only [bne_iff_ne, ne_eq, hadd, not_false_eq_true, if_true, Image.SetAddedAtFromString]
    rcases hp : w.parseTime (imageMap.get id).AddedAt with e | t <;>
      simp [adds_append, ha, adds]

/-- The images that the direct path adds for a list of pairs. -/
theorem bundleLoop_contents_after (w : World) (dirname : String) (st : BundleState)
    (hst : st.metadataRead = true) (ps : List (ExportedImage × Bytes))
    (hget : ∀ p ∈ ps, (st.imageMap.get p.1.Id).Id = p.1.Id) :
    (bundleLoop w dirname none st (ps.map contentMember)).2.2 = .ok ∧
    adds (bundleLoop w dirname none st (ps.map contentMember)).1 =
      (ps.filter fun p => idRegexpMatch p.1.Id).flatMap fun p =>
        adds (addMember w st.imageMap p.1.Id ⟨p.2, none⟩).1 := by
  induction ps with
  | nil => simp [bundleLoop, hst, adds]
  | cons p ps ih =>
    have ih := ih (fun q hq => hget q (List.mem_cons_of_mem _ hq))
    have hm : (contentMember p).Name ≠ "gif.json" := contentName_ne_manifest p.1.Id
    have htrim : trimGifSuffix (contentMember p).Name = p.1.Id := trimGifSuffix_append p.1.Id
    rw [List.map_cons]
    by_cases hid : idRegexpMatch p.1.Id = true
    · have hstep := bundleStep_add w dirname st hm
        (by rw [htrim]; exact hid) hst
      rw [htrim] at hstep
      have hbody : (contentMember p).body = ⟨p.2, none⟩ := rfl
      rw [hbody] at hstep
      have hp : (addMember w st.imageMap p.1.Id ⟨p.2, none⟩).2 = false := by
        obtain ⟨ev1, hw, -, -⟩ := @warnMismatch_of_match (st.imageMap.get p.1.Id).Id
          (FromData w p.2) (by rw [hget p (List.mem_cons_self _ _)]; exact hid)
        simp [addMember, hw]
      rw [hp] at hstep
      simp only [Bool.false_eq_true, if_false] at hstep
      rw [bundleLoop_cons_none _ (by rw [hstep]), hstep]
      simp [adds_append, ih.1, ih.2, hid, List.filter_cons]
    · have hstep := bundleStep_skip w dirname st hm
        (by rw [htrim]; simpa using hid)
      rw [bundleLoop_cons_none _ (by rw [hstep]), hstep]
      simp [ih.1, ih.2, hid, List.filter_cons]

/-- Emptying a queue of staged ids adds what the direct path adds for them. -/
theorem drain_eq_addMember (w : World) (dirname : String) (imageMap : ImageMap)
    (fs : Staging) (qs : List (ExportedImage × Bytes))
    (hid : ∀ p ∈ qs, idRegexpMatch p.1.Id = true)
    (hfile : ∀ p ∈ qs, fs.files.lookup (pathJoin dirname (p.1.Id ++ ".gif")) = some p.2)
    (hget : ∀ p ∈ qs, (imageMap.get p.1.Id).Id = p.1.Id) :
    (drain w dirname imageMap fs (qs.map fun p => p.1.Id)).2 = false ∧
    adds (drain w dirname imageMap fs (qs.map fun p => p.1.Id)).1 =
      qs.flatMap fun p => adds (addMember w imageMap p.1.Id ⟨p.2, none⟩).1 := by
  induction qs with
  | nil => simp [drain, adds]
  | cons p ps ih =>
    have ih := ih (fun q hq => hid q (List.mem_cons_of_mem _ hq))
      (fun q hq => hfile q (List.mem_cons_of_mem _ hq))
      (fun q hq => hget q (List.mem_cons_of_mem _ hq))
    obtain ⟨h1, -, h3⟩ := drainOne_eq_addMember w dirname imageMap fs p.1.Id p.2
      (hid p (List.mem_cons_self _ _)) (hfile p (List.mem_cons_self _ _))
      (hget p (List.mem_cons_self _ _))
    rcases hd : drainOne w dirname imageMap fs p.1.Id with ⟨ev, b⟩
    rw [hd] at h1 h3
    simp only at h1 h3
    subst h1
    simp [drain, hd, adds_append, h3, ih.1, ih.2]

theorem lookup_filter_ne (l : List (String × Bytes)) {path k : String} (h : path ≠ k) :
    (l.filter fun f => f.1 != k).lookup path = l.lookup path := by
  induction l with
  | nil => rfl
  | cons f fs ih =>
    by_cases hf : f.1 = k
    · have hne : (path == f.1) = false := by rw [hf]; simpa using h
      have : (f.1 != k) = false := by simp [hf]
      rw [List.filter_cons, if_neg (by simp [this]), List.lookup_cons, ih, hne]
    · have : (f.1 != k) = true := by simpa using hf
      rw [List.filter_cons, if_pos this, List.lookup_cons, List.lookup_cons, ih]

theorem stageMember_content (w : World) (dirname : String) (st : BundleState)
    (p : ExportedImage × Bytes) (hpres : st.fs.present = true)
    (hcreate : w.createError (pathJoin dirname (p.1.Id ++ ".gif")) = none) :
    stageMember w dirname st p.1.Id (contentMember p) =
      ([.create (pathJoin dirname (p.1.Id ++ ".gif"))],
        { st with
          fs := ⟨true, (pathJoin dirname (p.1.Id ++ ".gif"), p.2) ::
            st.fs.files.filter fun f => f.1 != pathJoin dirname (p.1.Id ++ ".gif")⟩,
          imageQueue := st.imageQueue ++ [p.1.Id] },
        false) := by
  simp [stageMember, contentMember, Staging.create, hpres, hcreate]

/-- The loop over content members that come before the metadata, when every staged
file can be created: nothing is added, the ids are queued in order and, when the
members of one name carry the same bytes, each staged file holds the bytes of its
member. -/
theorem bundleLoop_contents_before (w : World) (dirname : String) (err : Option String)
    (rest : List Member) (ps : List (ExportedImage × Bytes)) (st : BundleState)
    (hst : st.metadataRead = false) (hpres : st.fs.present = true)
    (hsame : ∀ p ∈ ps, ∀ q ∈ ps, idRegexpMatch p.1.Id = true → p.1.Id = q.1.Id → p.2 = q.2)
    (hcreate : ∀ p ∈ ps, idRegexpMatch p.1.Id = true →
      w.createError (pathJoin dirname (p.1.Id ++ ".gif")) = none) :
    ∃ ev st',
      bundleLoop w dirname err st (ps.map contentMember ++ rest) =
        (ev ++ (bundleLoop w dirname err st' rest).1, (bundleLoop w dirname err st' rest).2) ∧
      adds ev = [] ∧ st'.metadataRead = false ∧ st'.imageMap = st.imageMap ∧
      st'.imageQueue = st.imageQueue ++
        (ps.filter fun p => idRegexpMatch p.1.Id).map (fun p => p.1.Id) ∧
      st'.fs.present = true ∧
      (∀ p ∈ ps, idRegexpMatch p.1.Id = true →
        st'.fs.files.lookup (pathJoin dirname (p.1.Id ++ ".gif")) = some p.2) ∧
      (∀ path data, st.fs.files.lookup path = some data →
        (∀ q ∈ ps, idRegexpMatch q.1.Id = true → path ≠ pathJoin dirname (q.1.Id ++ ".gif")) →
        st'.fs.files.lookup path = some data) := by
  induction ps generalizing st with
  | nil =>
    exact ⟨[], st, by simp, rfl, hst, rfl, by simp, hpres, by simp, fun _ _ h _ => h⟩
  | cons p ps ih =>
    have hsame' : ∀ a ∈ ps, ∀ b ∈ ps, idRegexpMatch a.1.Id = true → a.1.Id = b.1.Id →
        a.2 = b.2 := fun a ha b hb =>
      hsame a (List.mem_cons_of_mem _ ha) b (List.mem_cons_of_mem _ hb)
    have hcreate' : ∀ a ∈ ps, idRegexpMatch a.1.Id = true →
        w.createError (pathJoin dirname (a.1.Id ++ ".gif")) = none := fun a ha =>
      hcreate a (List.mem_cons_of_mem _ ha)
    have hm : (contentMember p).Name ≠ "gif.json" := contentName_ne_manifest p.1.Id
    have htrim : trimGifSuffix (contentMember p).Name = p.1.Id := trimGifSuffix_append p.1.Id
    by_cases hid : idRegexpMatch p.1.Id = true
    · have hstep := bundleStep_stage w dirname st hm
        (by rw [htrim]; exact hid) hst
      rw [htrim, stageMember_content w dirname st p hpres
        (hcreate p (List.mem_cons_self _ _) hid)] at hstep
      obtain ⟨ev, st', h1, h2, h3, h4, h5, h6, h7, h8⟩ := ih
        { st with
          fs := ⟨true, (pathJoin dirname (p.1.Id ++ ".gif"), p.2) ::
            st.fs.files.filter fun f => f.1 != pathJoin dirname (p.1.Id ++ ".gif")⟩,
          imageQueue := st.imageQueue ++ [p.1.Id] } hst rfl hsame' hcreate'
      refine ⟨.create (pathJoin dirname (p.1.Id ++ ".gif")) :: ev, st', ?_, ?_, h3, h4, ?_, h6,
        ?_, ?_⟩
      · rw [List.map_cons, List.cons_append, bundleLoop_cons_none _ (by rw [hstep]), hstep]
        simp only [h1, List.singleton_append, List.cons_append, List.nil_append]
      · simpa [adds] using h2
      · simp [h5, List.filter_cons, hid]
      · intro q hq hqid
        rcases List.mem_cons.mp hq with e | hq'
        · subst e
          by_cases hex : ∃ r ∈ ps, r.1.Id = q.1.Id
          · obtain ⟨r, hr, hrq⟩ := hex
            have hrid : idRegexpMatch r.1.Id = true := by rw [hrq]; exact hqid
            rw [hsame q (List.mem_cons_self _ _) r (List.mem_cons_of_mem _ hr) hqid hrq.symm,
              ← hrq]
            exact h7 r hr hrid
          · refine h8 _ _ (by simp) ?_
            intro r hr hrid e
            exact hex ⟨r, hr, (pathJoin_content_injective dirname hqid hrid e).symm⟩
        · exact h7 q hq' hqid
      · intro path data hl hne
        have hp : path ≠ pathJoin dirname (p.1.Id ++ ".gif") :=
          hne p (List.mem_cons_self _ _) hid
        refine h8 path data ?_ fun q hq => hne q (List.mem_cons_of_mem _ hq)
        have hb : (path == pathJoin dirname (p.1.Id ++ ".gif")) = false := by simpa using hp
        simp only [List.lookup_cons, hb]
        rw [lookup_filter_ne _ hp]
        exact hl
    · have hstep := bundleStep_skip w dirname st hm
        (by rw [htrim]; simpa using hid)
      obtain ⟨ev, st', h1, h2, h3, h4, h5, h6, h7, h8⟩ := ih st hst hpres hsame' hcreate'
      refine ⟨ev, st', ?_, h2, h3, h4, ?_, h6, ?_, ?_⟩
      · rw [List.map_cons, List.cons_append, bundleLoop_cons_none _ (by rw [hstep]), hstep]
        simp only [h1, List.nil_append]
      · simp [h5, List.filter_cons, hid]
      · intro q hq hqid
        rcases List.mem_cons.mp hq with e | hq'
        · subst e
          exact absurd hqid hid
        · exact h7 q hq' hqid
      · intro path data hl hne
        exact h8 path data hl fun q hq => hne q (List.mem_cons_of_mem _ hq)

/-- The order of the members does not matter when no two pairs claim one forty-digit id
with different bytes and every staged file can be created: the bundle with the content
before `gif.json` and the bundle with the content after it then hand the same images to
`AddInterface`, in the same order, and end the same way. -/
theorem import_order_independent (w : World) (manifest : Stream)
    (pairs : List (ExportedImage × Bytes))
    (hparse : w.parseMetadata manifest = .ok (pairs.map Prod.fst))
    (hsame : ∀ p ∈ pairs, ∀ q ∈ pairs, idRegexpMatch p.1.Id = true → p.1.Id = q.1.Id →
      p.2 = q.2)
    (hcreate : ∀ dirname, w.tempDir = .ok dirname → ∀ p ∈ pairs,
      idRegexpMatch p.1.Id = true →
        w.createError (pathJoin dirname (p.1.Id ++ ".gif")) = none) :
    adds (importBundle w (contentFirst manifest pairs)).1 =
      adds (importBundle w (metadataFirst manifest pairs)).1 ∧
    (importBundle w (contentFirst manifest pairs)).2.2 =
      (importBundle w (metadataFirst manifest pairs)).2.2 := by
  unfold importBundle
  rcases ht : w.tempDir with e | dirname
  · exact ⟨rfl, rfl⟩
  · have hget : ∀ p ∈ pairs,
        ((ImageMap.putAll [] (pairs.map Prod.fst)).get p.1.Id).Id = p.1.Id := by
      intro p hp
      exact get_putAll_Id _ (List.mem_map.mpr ⟨p.1, List.mem_map.mpr ⟨p, hp, rfl⟩, rfl⟩)
    have hmn : (manifestMember manifest).Name = "gif.json" := rfl
    have hmb : w.parseMetadata (manifestMember manifest).body = .ok (pairs.map Prod.fst) :=
      hparse
    -- the metadata first
    have hstep1 := bundleStep_manifest_ok w dirname BundleState.init hmn hmb
    have hd1 : drain w dirname (BundleState.init.imageMap.putAll (pairs.map Prod.fst))
        BundleState.init.fs BundleState.init.imageQueue = ([], false) := rfl
    rw [hd1] at hstep1
    simp only [Bool.false_eq_true, if_false, List.nil_append] at hstep1
    obtain ⟨m1, m2⟩ := bundleLoop_contents_after w dirname
      { imageMap := BundleState.init.imageMap.putAll (pairs.map Prod.fst), metadataRead := true,
        imageQueue := [], fs := ⟨false, []⟩ } rfl pairs hget
    have hmeta : bundleLoop w dirname none BundleState.init
        (manifestMember manifest :: pairs.map contentMember) = _ :=
      (@bundleLoop_cons_none _ _ none _ _ (pairs.map contentMember) (by rw [hstep1])).trans
        (by rw [hstep1])
    -- the content first
    obtain ⟨ev, st', c1, c2, c3, c4, c5, c6, c7, -⟩ :=
      bundleLoop_contents_before w dirname none [manifestMember manifest] pairs
        BundleState.init rfl rfl hsame (hcreate dirname ht)
    have hstep2 := bundleStep_manifest_ok w dirname st' hmn hmb
    have hq : st'.imageQueue =
        (pairs.filter fun p => idRegexpMatch p.1.Id).map (fun p => p.1.Id) := by
      rw [c5]
      rfl
    obtain ⟨d1, d2⟩ := drain_eq_addMember w dirname (ImageMap.putAll [] (pairs.map Prod.fst))
      st'.fs (pairs.filter fun p => idRegexpMatch p.1.Id)
      (fun p hp => (List.mem_filter.mp hp).2)
      (fun p hp => c7 p (List.mem_filter.mp hp).1 (List.mem_filter.mp hp).2)
      (fun p hp => hget p (List.mem_filter.mp hp).1)
    rw [c4, hq] at hstep2
    change bundleStep w dirname st' (manifestMember manifest) =
      if (drain w dirname (ImageMap.putAll [] (pairs.map Prod.fst)) st'.fs
          ((pairs.filter fun p => idRegexpMatch p.1.Id).map fun p => p.1.Id)).2 = true then _
      else _ at hstep2
    rw [d1] at hstep2
    simp only [Bool.false_eq_true, if_false] at hstep2
    have hcont : bundleLoop w dirname none st' [manifestMember manifest] = _ :=
      (@bundleLoop_cons_none _ _ none _ _ [] (by rw [hstep2])).trans (by rw [hstep2])
    have hnil : ∀ st : BundleState, st.metadataRead = true →
        bundleLoop w dirname none st [] = ([], st, .ok) := by
      intro st hst
      simp [bundleLoop, hst]
    rw [hnil _ rfl] at hcont
    have e1 : adds (bundleLoop w dirname none BundleState.init
          (pairs.map contentMember ++ [manifestMember manifest])).1 =
        (pairs.filter fun p => idRegexpMatch p.1.Id).flatMap fun p =>
          adds (addMember w (ImageMap.putAll [] (pairs.map Prod.fst)) p.1.Id ⟨p.2, none⟩).1 := by
      rw [c1, hcont]
      simp only [adds_append, c2, adds, List.nil_append, List.append_nil]
      exact d2
    have e2 : adds (bundleLoop w dirname none BundleState.init
          (manifestMember manifest :: pairs.map contentMember)).1 =
        (pairs.filter fun p => idRegexpMatch p.1.Id).flatMap fun p =>
          adds (addMember w (ImageMap.putAll [] (pairs.map Prod.fst)) p.1.Id ⟨p.2, none⟩).1 := by
      rw [hmeta]
      simp only [adds_append, adds, List.nil_append]
      exact m2
    have o1 : (bundleLoop w dirname none BundleState.init
          (pairs.map contentMember ++ [manifestMember manifest])).2.2 = .ok := by
      rw [c1, hcont]
    have o2 : (bundleLoop w dirname none BundleState.init
          (manifestMember manifest :: pairs.map contentMember)).2.2 = .ok := by
      rw [hmeta]
      exact m1
    simp only [contentFirst, metadataFirst, adds, e1, e2, o1, o2, and_self]

/-! ## The slice that panics -/

theorem hexEncode_length (bs : Bytes) : (hexEncode bs).data.length = 2 * bs.length := by
  unfold hexEncode
  induction bs with
  | nil => rfl
  | cons b bs ih =>
    simp only [List.flatMap_cons, List.length_append, List.length_cons, List.length_nil] at ih ⊢
    omega

theorem generateId_length (data : Bytes) : (generateId data).data.length = 40 := by
  unfold generateId
  rw [hexEncode_length]
  simp [Sha1.sum, Sha1.wordBytes]

/-- A content member that is read after the metadata, and whose id the map does not
hold, makes the slice `exported.Id[:8]` panic. -/
theorem addMember_missing_record_panics (w : World) (imageMap : ImageMap) (imageId : String)
    (body : Stream) (hbody : body.err = none) (hmap : imageMap.lookup imageId = none) :
    addMember w imageMap imageId body = ([], true) := by
  have hget : imageMap.get imageId = ExportedImage.zero := by simp [ImageMap.get, hmap]
  have hne : ("" != (FromData w body.data).Id) = true := by
    have hl := generateId_length body.data
    have : (FromData w body.data).Id ≠ "" := by
      intro e
      have e2 : generateId body.data = "" := e
      rw [e2] at hl
      simp at hl
    simpa using fun e => this e.symm
  have hw : warnMismatch "" (FromData w body.data) = none := by
    unfold warnMismatch
    rw [if_pos hne]
    rfl
  unfold addMember
  simp only [hbody, hget, ExportedImage.zero, hw]

theorem warnMismatch_of_ne {claimed : String} (img : Image)
    (h : idRegexpMatch claimed = true) (hne : img.Id ≠ claimed) :
    warnMismatch claimed img =
      some [.write (mismatchLine (String.mk (claimed.data.take 8)) img.Id)] := by
  have : (claimed != img.Id) = true := by simpa using fun e => hne e.symm
  simp [warnMismatch, this, slice8_of_idRegexpMatch h]

/-- After the metadata, a member whose bytes do not hash to its claimed id, and whose
claimed id the map holds, is added under the recomputed id with one warning. -/
theorem addMember_mismatch (w : World) (imageMap : ImageMap) (imageId : String)
    (data : Bytes) (hid : idRegexpMatch imageId = true)
    (hget : (imageMap.get imageId).Id = imageId) (hne : generateId data ≠ imageId) :
    ∃ img : Image, img.Id = generateId data ∧ img.Data = data ∧
      addMember w imageMap imageId ⟨data, none⟩ =
        ([.write (mismatchLine (String.mk (imageId.data.take 8)) (generateId data)),
          .add img], false) := by
  have hw := warnMismatch_of_ne (FromData w data) hid hne
  have hi : (FromData w data).Id = generateId data := rfl
  unfold addMember
  simp only [hget, hw]
  by_cases hadd : (imageMap.get imageId).AddedAt = ""
  · exact ⟨{ FromData w data with
      Url := (imageMap.get imageId).Url, Tags := (imageMap.get imageId).Tags }, rfl, rfl,
      by simp [hadd, hi]⟩
  · rcases hp : w.parseTime (imageMap.get imageId).AddedAt with e | t
    · exact ⟨{ FromData w data with
        Url := (imageMap.get imageId).Url, Tags := (imageMap.get imageId).Tags }, rfl, rfl,
        by simp [hadd, Image.SetAddedAtFromString, hp, hi]⟩
    · exact ⟨{ FromData w data with
        Url := (imageMap.get imageId).Url, Tags := (imageMap.get imageId).Tags,
        AddedAt := some t }, rfl, rfl,
        by simp [hadd, Image.SetAddedAtFromString, hp, hi]⟩

/-- Before the metadata, the same member is staged; when the queue is emptied it is
added under the recomputed id with the same warning, and with a second warning when
the date of its record does not parse. -/
theorem drainOne_mismatch (w : World) (dirname : String) (imageMap : ImageMap)
    (fs : Staging) (imageId : String) (data : Bytes) (hid : idRegexpMatch imageId = true)
    (hfile : fs.files.lookup (pathJoin dirname (imageId ++ ".gif")) = some data)
    (hget : (imageMap.get imageId).Id = imageId) (hne : generateId data ≠ imageId) :
    ∃ img : Image, img.Id = generateId data ∧ img.Data = data ∧
      (drainOne w dirname imageMap fs imageId =
          ([.write (mismatchLine (String.mk (imageId.data.take 8)) (generateId data)),
            .add img], false) ∨
        drainOne w dirname imageMap fs imageId =
          ([.write (mismatchLine (String.mk (imageId.data.take 8)) (generateId data)),
            .write (dateLine (String.mk (imageId.data.take 8)) (imageMap.get imageId).AddedAt),
            .add img], false)) := by
  have hw := warnMismatch_of_ne (FromData w data) hid hne
  have hf : FromFile w fs (pathJoin dirname (imageId ++ ".gif")) = .ok (FromData w data) := by
    simp [FromFile, Staging.readFile, hfile]
  have hi : (FromData w data).Id = generateId data := rfl
  unfold drainOne
  simp only [hf, hw, hget, slice8_of_idRegexpMatch hid]
  by_cases hadd : (imageMap.get imageId).AddedAt = ""
  · exact ⟨{ FromData w data with
      Url := (imageMap.get imageId).Url, Tags := (imageMap.get imageId).Tags }, rfl, rfl,
      Or.inl (by simp [hadd, hi])⟩
  · rcases hp : w.parseTime (imageMap.get imageId).AddedAt with e | t
    · exact ⟨{ FromData w data with
        Url := (imageMap.get imageId).Url, Tags := (imageMap.get imageId).Tags }, rfl, rfl,
        Or.inr (by simp [hadd, Image.SetAddedAtFromString, hp, hi])⟩
    · exact ⟨{ FromData w data with
        Url := (imageMap.get imageId).Url, Tags := (imageMap.get imageId).Tags,
        AddedAt := some t }, rfl, rfl,
        Or.inl (by simp [hadd, Image.SetAddedAtFromString, hp, hi])⟩

/-! ## The claims at concrete inputs -/

/-- C1 at a concrete archive: a content member and a file of another name, no
`gif.json`. -/
theorem importBundle_without_manifest_witness :
    (∀ m ∈ looseArchive.members, m.Name ≠ "gif.json") ∧
    ((∃ e, (importBundle sampleWorld looseArchive).2.2 = .error e) ∧
      adds (importBundle sampleWorld looseArchive).1 = [] ∧
      (∀ dirname, sampleWorld.tempDir = .ok dirname → looseArchive.err = none →
        (importBundle sampleWorld looseArchive).2.2 = .error .noMetadata)) :=
  ⟨by decide, importBundle_without_manifest sampleWorld looseArchive (by decide)⟩

/-- C2 at a failing input: two pairs that claim the same id. With the content first the
second staged file replaces the first, the bytes `[0x49]` are added twice and the bytes
`[0x47]` never; with the metadata first the bytes `[0x47]` and `[0x49]` are added. -/
theorem import_order_dependent :
    (adds (importBundle sampleWorld (contentFirst twiceManifest
        [(otherRecord, [0x47]), (otherRecord, [0x49])])).1).map Image.Data = [[0x49], [0x49]] ∧
    (adds (importBundle sampleWorld (metadataFirst twiceManifest
        [(otherRecord, [0x47]), (otherRecord, [0x49])])).1).map Image.Data = [[0x47], [0x49]] ∧
    sampleWorld.parseMetadata twiceManifest = .ok [otherRecord, otherRecord] := by
  decide!

/-- Two pairs with distinct ids in the sample world, where every file can be created:
both orders add the same images. -/
theorem import_order_independent_sample :
    adds (importBundle sampleWorld (contentFirst bothManifest
        [(emptyRecord, []), (otherRecord, [0x47])])).1 =
      adds (importBundle sampleWorld (metadataFirst bothManifest
        [(emptyRecord, []), (otherRecord, [0x47])])).1 ∧
    (importBundle sampleWorld (contentFirst bothManifest
        [(emptyRecord, []), (otherRecord, [0x47])])).2.2 =
      (importBundle sampleWorld (metadataFirst bothManifest
        [(emptyRecord, []), (otherRecord, [0x47])])).2.2 :=
  import_order_independent sampleWorld bothManifest [(emptyRecord, []), (otherRecord, [0x47])]
    (by decide!) (by decide) (fun _ _ _ _ _ => rfl)

/-- When `os.Create` fails, the member that comes before `gif.json` is dropped with an
error line, and the same member after `gif.json` is added. -/
theorem create_failure_drops_member :
    pathJoin "/t/sym/link/../gif-import1" (emptyId ++ ".gif") =
      "/t/sym/gif-import1/da39a3ee5e6b4b0d3255bfef95601890afd80709.gif" ∧
    importBundle unstableTempWorld (contentFirst emptyManifest [(emptyRecord, [])]) =
      ([.mkTemp "/t/sym/link/../gif-import1",
        .write ("[error]\tda39a3ee\topen /t/sym/gif-import1/" ++
          "da39a3ee5e6b4b0d3255bfef95601890afd80709.gif: no such file or directory\x0c"),
        .removeAll "/t/sym/link/../gif-import1"],
        some ⟨[(emptyId, emptyRecord)], true, [], ⟨false, []⟩⟩, .ok) ∧
    (adds (importBundle unstableTempWorld
        (metadataFirst emptyManifest [(emptyRecord, [])])).1).map Image.Id = [emptyId] := by
  decide!

/-- C3 at a failing input: after a `gif.json` that does not list its id, a member whose
bytes do not hash to the claimed id makes `importBundle` panic; nothing is added and
no warning is written. Before `gif.json` the same member is added under the recomputed
id. -/
theorem mismatch_after_metadata_panics :
    generateId [0x47] = "a36a6718f54524d846894fb04b5b885b4e43e63b" ∧
    importBundle sampleWorld
        ⟨[manifestMember emptyManifest, ⟨otherId ++ ".gif", ⟨[0x47], none⟩⟩], none⟩ =
      ([.mkTemp "/tmp/gif-import042", .removeAll "/tmp/gif-import042"],
        some ⟨[(emptyId, emptyRecord)], true, [], ⟨false, []⟩⟩, .panic) ∧
    (adds (importBundle sampleWorld
        ⟨[⟨otherId ++ ".gif", ⟨[0x47], none⟩⟩, manifestMember emptyManifest], none⟩).1).map
      Image.Id = ["a36a6718f54524d846894fb04b5b885b4e43e63b"] := by
  decide!

/-- C4 at a failing input: the two bytes `[]` are the metadata of no image, and
`importFromReader` returns the error of `Peek` without parsing them. -/
theorem importFromReader_short_manifest :
    (∀ w : World, importFromReader w noManifest = ([], .error (.peek "EOF"))) ∧
    sampleWorld.parseMetadata noManifest = .ok [] ∧
    gzipHeaderOk noManifest.data = false :=
  ⟨fun _ => rfl, by decide, by decide⟩

/-- C5 at a failing input: a member named by forty hexadecimal digits without `.gif`.
Before `gif.json` it is staged, and an error line is written when the queue is emptied;
after `gif.json` it is added. -/
theorem bare_name_is_content :
    ".gif".data.isSuffixOf emptyId.data = false ∧
    (importBundle sampleWorld
        ⟨[⟨emptyId, ⟨[], none⟩⟩, manifestMember emptyManifest], none⟩).1 =
      [.mkTemp "/tmp/gif-import042",
        .create "/tmp/gif-import042/da39a3ee5e6b4b0d3255bfef95601890afd80709",
        .write ("[error]\tda39a3ee\topen /tmp/gif-import042/" ++
          "da39a3ee5e6b4b0d3255bfef95601890afd80709.gif: no such file or directory\x0c"),
        .removeAll "/tmp/gif-import042"] ∧
    (adds (importBundle sampleWorld
        ⟨[manifestMember emptyManifest, ⟨emptyId, ⟨[], none⟩⟩], none⟩).1).map Image.Id =
      [emptyId] := by
  decide!

/-- C6 at a failing input: a record whose date does not parse, with its content after
`gif.json`. The image is added without a date and nothing is written. With the content
before `gif.json` the warning is written. -/
theorem unparsed_date_dropped_silently :
    sampleWorld.parseTime emptyRecord.AddedAt = .error "parsing time \"yesterday\"" ∧
    (importBundle sampleWorld
        ⟨[manifestMember emptyManifest, ⟨emptyId ++ ".gif", ⟨[], none⟩⟩], none⟩).1 =
      [.mkTemp "/tmp/gif-import042", .removeAll "/tmp/gif-import042",
        .add ⟨emptyId, "http://example.com/empty.gif", ["empty"], [], none, 0, "unknown"⟩] ∧
    writes (importBundle sampleWorld
        ⟨[⟨emptyId ++ ".gif", ⟨[], none⟩⟩, manifestMember emptyManifest], none⟩).1 =
      ["[warn]\tda39a3ee\tCould not set addition date: yesterday\x0c"] := by
  decide!

/-- C7 at a concrete manifest: one record whose URL answers 200 and one whose URL
answers 404. -/
theorem importUrls_isolates_failures_witness :
    (∀ exported ∈ [emptyRecord, otherRecord], idRegexpMatch exported.Id = true) ∧
    importUrls sampleWorld [emptyRecord, otherRecord] =
      ([.write "[warn]\tda39a3ee\tCould not set addition date: yesterday\x0c",
        .add ⟨emptyId, "http://example.com/empty.gif", ["empty"], [], none, 0, "unknown"⟩,
        .write "[error]\taaaaaaaa\tHTTP/1.1 404 Not Found\x0c"], .ok) ∧
    ((importUrls sampleWorld [emptyRecord, otherRecord]).2 = .ok ∧
    (adds (importUrls sampleWorld [emptyRecord, otherRecord]).1).map Image.key =
      [emptyRecord, otherRecord].flatMap (fun exported =>
        match FromUrl sampleWorld exported.Url with
        | .ok img => [(img.Id, exported.Url, exported.Tags, img.Data)]
        | .error _ => []) ∧
    (writes (importUrls sampleWorld [emptyRecord, otherRecord]).1).filter isErrorLine =
      [emptyRecord, otherRecord].flatMap (fun exported =>
        match FromUrl sampleWorld exported.Url with
        | .ok _ => []
        | .error e => [errorLine (String.mk (exported.Id.data.take 8)) e])) ∧
    (∀ exported ∈ [emptyRecord, otherRecord], ∀ response : Response,
      sampleWorld.httpGet exported.Url = .ok response → response.StatusCode ≥ 300 →
        FromUrl sampleWorld exported.Url =
          .error (response.Proto ++ " " ++ response.Status)) :=
  ⟨by decide, by decide!,
    importUrls_isolates_failures sampleWorld [emptyRecord, otherRecord] (by decide)⟩

/-- C8 at a concrete run: a bundle with its content before `gif.json`, which is
imported. -/
theorem importBundle_removes_staging_witness :
    ((importBundle sampleWorld (contentFirst emptyManifest [(emptyRecord, [])])).2.2 = .ok ∨
      (importBundle sampleWorld (contentFirst emptyManifest [(emptyRecord, [])])).2.2 =
        .error .noMetadata) ∧
    ∃ dirname st pre post,
      sampleWorld.tempDir = .ok dirname ∧
      (importBundle sampleWorld (contentFirst emptyManifest [(emptyRecord, [])])).2.1 = some st ∧
      st.fs = ⟨false, []⟩ ∧
      (importBundle sampleWorld (contentFirst emptyManifest [(emptyRecord, [])])).1 =
        pre ++ .removeAll dirname :: post ∧
      creates post = [] :=
  ⟨Or.inl (by decide!),
    importBundle_removes_staging sampleWorld (contentFirst emptyManifest [(emptyRecord, [])])
      (Or.inl (by decide!))⟩

/-- C9 at a failing input: after a `gif.json` that lists no image, a member whose name
is the digest of its bytes makes `importBundle` panic on `exported.Id[:8]`: the map has
no record for the id, and the zero value has the empty id. -/
theorem slice_of_missing_record_panics :
    generateId [] = emptyId ∧
    slice8 (ImageMap.get [] emptyId).Id = none ∧
    importBundle sampleWorld
        ⟨[manifestMember noManifest, ⟨emptyId ++ ".gif", ⟨[], none⟩⟩], none⟩ =
      ([.mkTemp "/tmp/gif-import042", .removeAll "/tmp/gif-import042"],
        some ⟨[], true, [], ⟨false, []⟩⟩, .panic) := by
  decide!

/-- C10 at a concrete run: the staging directory `/tmp/gif-import042` and a bundle with
one content member before `gif.json`. -/
theorem staging_path_is_child_witness :
    sampleWorld.tempDir = .ok "/tmp/gif-import042" ∧
    (∀ name : String, idRegexpMatch (trimGifSuffix name) = true →
      plainName name ∧
        pathJoin "/tmp/gif-import042" name =
          childPath (String.mk (pathClean "/tmp/gif-import042".data)) name) ∧
    (∀ p ∈ creates (importBundle sampleWorld
        (contentFirst emptyManifest [(emptyRecord, [])])).1,
      ∃ m ∈ (contentFirst emptyManifest [(emptyRecord, [])]).members,
        idRegexpMatch (trimGifSuffix m.Name) = true ∧
          p = childPath (String.mk (pathClean "/tmp/gif-import042".data)) m.Name) :=
  ⟨rfl,
    staging_path_is_child sampleWorld (contentFirst emptyManifest [(emptyRecord, [])])
      "/tmp/gif-import042" rfl⟩

end Gif
